import Mathlib

/-!
A verification development for the TOML encoder in `encode.go`.

The Go source is shallowly embedded as follows.

* Go values reachable by the encoder are modelled by `GoValue`.  Pointers and
  interfaces are represented *after* indirection (`eindirect` in the source
  recursively takes `.Elem()` of pointers and interfaces), so `eindirect`
  needs no counterpart here.  `vNil` stands for a typed nil (a nil map or
  nil slice, which `eindirect` returns unchanged); `vInvalid` stands for
  the zero `reflect.Value` that indirecting a nil pointer or nil interface
  leaves behind (`Kind() == Invalid`, `IsValid() == false`).  `isNil` is
  the source's test as applied to a stored, not-yet-indirected value, so
  it holds of both.
* A `float32`/`float64` is carried as the string produced by
  `strconv.FormatFloat(f, 'f', -1, bits)` (its shortest fixed-point decimal
  form, which contains at most one dot and no exponent), since IEEE-754
  shortest-decimal rendering itself is out of scope; `eElement` applies
  `floatAddDecimal` to that string exactly as the source does.
* A `time.Time` is carried as the string the source renders for it
  (`v.In(UTC).Format("2006-01-02T15:04:05Z")`); its reflect kind is `Struct`.
* `TextMarshaler` values are not modelled (no claim mentions them).
* Errors: Go signals failures with `encPanic` (a `tomlEncodeError` recovered
  by `safeEncode`) and with a few plain `panic`s that `safeEncode` re-raises.
  Both are modelled as `Except.error`; constructors note which is which.
* `enc.wf(format, args...)` writes `fmt.Fprintf`-formatted text and sets
  `hasWritten`.  Calls whose format string is a literal are translated with
  the formatting already performed (`fmt` never rescans operand text, so a
  literal `"%s"` format writes its operand verbatim).  In
  `writeMultiLineString` the *data* is passed in format position with no
  operands (`enc.wf(s + " ")` and `enc.wf(quotedReplacer.Replace(s))`);
  there `fmt` interprets percent directives in the data, which
  `fprintfNoArgs` models after `fmt.doPrintf`: `%%` emits `%`, a verb with
  no operand left emits `%!v(MISSING)`, a trailing percent `%!(NOVERB)`,
  starred width/precision `%!(BADWIDTH)`/`%!(BADPREC)`, and a bracketed
  argument index (never satisfiable with no operands) `%!v(BADINDEX)`.
  The two marker writes of `writeMultiLineString` contain no percent sign,
  so they are written as themselves.
* The companion files of the repository (`type_check.go`, the parser) are
  not under `src/`; the few helpers the encoder takes from them
  (`tomlType`, `typeEqual`, `typeIsHash`, `Key.String`) are modelled from
  the spec, as marked on their doc comments.
-/

namespace Toml

/-- Modelled from the spec: the closed set of semantic kinds of the format
(the `tomlType` values `tomlBool`, `tomlInteger`, ... live in the companion
`type_check.go`, which is not under `src/`).  Two types are equal exactly
when their type strings coincide, so an inductive with one constructor per
named kind is faithful. -/
inductive tomlType where
  | tomlBool
  | tomlInteger
  | tomlFloat
  | tomlString
  | tomlDatetime
  | tomlArray
  | tomlArrayHash
  | tomlHash
deriving DecidableEq, Repr

/-- The encoder's failure conditions.  The first six are the `errors.New`
values declared at the top of `encode.go` and are raised through `encPanic`.
The remaining constructors model the other aborts of the source: the two
key-validation errors built by `panicIfInvalidKey` (carrying the dotted key,
as the Go message does), and the plain (unrecovered) panics, including the
`reflect` panics that `safeEncode` re-raises: `errReflectInvalidField` for
`FieldByIndex` on a path it cannot resolve, and `errReflectTypeZeroValue`
for `Value.Type` called on the zero `reflect.Value` (as `addFields` does on
an embedded nil pointer/interface after indirection); `errUnsupportedKind`
is `encode`'s `default:` panic, reached by the zero value. -/
inductive EncodeError where
  | errArrayMixedElementTypes
  | errArrayNilElement
  | errNonString
  | errAnonNonStruct
  | errArrayNoTable
  | errNoKey
  | errInvalidTableName (key : String)
  | errInvalidKeyName (key : String)
  | errUnexpectedPrimitive
  | errNonTableValue
  | errReflectInvalidField
  | errReflectTypeZeroValue
  | errUnsupportedKind
deriving DecidableEq, Repr

/-- The reflect kinds the encoder distinguishes, as far as the model needs
them (the modifier check compares `sf.Kind()` with `reflect.String`). -/
inductive RKind where
  | rBool
  | rInt
  | rFloat
  | rString
  | rArray
  | rMap
  | rStruct
  | rInvalid
deriving DecidableEq, Repr

mutual
/-- A Go value as the encoder sees it, after indirection (see the module
comment).  `vMap` lists the map's entries in one iteration order (Go map
iteration order is unspecified); `vStruct` lists the declared fields in
declaration order; `vNil` is a typed nil (nil map or nil slice, returned
unchanged by `eindirect`); `vInvalid` is the zero `reflect.Value` that
indirecting a nil pointer or nil interface produces. -/
inductive GoValue where
  | vBool (b : Bool)
  | vInt (i : Int)
  | vFloat (fstr : String)
  | vDatetime (iso : String)
  | vString (s : String)
  | vArr (elems : List GoValue)
  | vMap (entries : List (String × GoValue))
  | vStruct (fields : List GoField)
  | vNil
  | vInvalid

/-- A declared struct field: name, `toml:"..."` tag, `modifier:"..."` tag,
whether it is anonymous (embedded), whether it is exported
(`PkgPath == ""`), and its value. -/
inductive GoField where
  | mk (fname : String) (ftomlTag : String) (fmodifierTag : String)
      (fanonymous : Bool) (fexported : Bool) (fvalue : GoValue)
end

def GoField.name : GoField → String
  | .mk n _ _ _ _ _ => n

def GoField.tomlTag : GoField → String
  | .mk _ t _ _ _ _ => t

def GoField.modifierTag : GoField → String
  | .mk _ _ m _ _ _ => m

def GoField.anonymous : GoField → Bool
  | .mk _ _ _ a _ _ => a

def GoField.exported : GoField → Bool
  | .mk _ _ _ _ e _ => e

def GoField.value : GoField → GoValue
  | .mk _ _ _ _ _ v => v

/-- Model of `isNil` (encode.go): nil interface / map / pointer / slice.
Every call site of the source tests a stored, not-yet-indirected value
(a map entry, a struct field, an array element), so in the
post-indirection representation both a typed nil (`vNil`) and a value
that indirection reduced to the zero `reflect.Value` (`vInvalid`, from a
nil pointer/interface) answer true. -/
def isNil : GoValue → Bool
  | .vNil => true
  | .vInvalid => true
  | _ => false

/-- The reflect kind of a modelled value (`time.Time` is a struct type).
`vNil` collapses the nil map and the nil slice (kinds `Map` and `Slice`);
its kind is consulted nowhere — every path tests `isNil` first — so the
placeholder `rInvalid` is never observed.  The zero value's kind is
`Invalid`. -/
def goKind : GoValue → RKind
  | .vBool _ => .rBool
  | .vInt _ => .rInt
  | .vFloat _ => .rFloat
  | .vDatetime _ => .rStruct
  | .vString _ => .rString
  | .vArr _ => .rArray
  | .vMap _ => .rMap
  | .vStruct _ => .rStruct
  | .vNil => .rInvalid
  | .vInvalid => .rInvalid

/-- `MOD_NONE` (encode.go): `Modifier` is a string type. -/
def MOD_NONE : String := ""

/-- `MOD_MULTILINE_STRING` (encode.go). -/
def MOD_MULTILINE_STRING : String := "multiline_string"

/-- `MOD_MULTILINE_RAWSTRING` (encode.go). -/
def MOD_MULTILINE_RAWSTRING : String := "multiline_rawstring"

/-- Model of the `validmodifiers` map (encode.go): both valid modifiers
require the field's reflect kind to be `String`. -/
def validmodifiers (m : String) : Option RKind :=
  if m = MOD_MULTILINE_STRING then some RKind.rString
  else if m = MOD_MULTILINE_RAWSTRING then some RKind.rString
  else none

/-- Modelled from the spec: `typeEqual` of the companion `type_check.go`
(not under `src/`): two TOML types are equal when both are non-nil and
their type strings coincide; a nil type equals nothing. -/
def typeEqual : Option tomlType → Option tomlType → Bool
  | some t1, some t2 => t1 = t2
  | _, _ => false

/-- Modelled from the spec: `typeIsHash` of the companion `type_check.go`
(not under `src/`): a type is table-shaped when it is `tomlHash` or
`tomlArrayHash` (spec section 3, "sub" entries are of table or
array-of-tables kind). -/
def typeIsHash (t : Option tomlType) : Bool :=
  typeEqual t (some .tomlHash) || typeEqual t (some .tomlArrayHash)

mutual
/-- Model of `tomlTypeOfGo` (encode.go): the TOML type of a Go value, `none`
when no concrete type exists (the `isNil(rv) || !rv.IsValid()` guard, which
covers `vNil` and `vInvalid`).  It can abort, because on arrays it consults
`tomlArrayType`, which panics on malformed arrays. -/
def tomlTypeOfGo : GoValue → Except EncodeError (Option tomlType)
  | .vNil => pure none
  | .vInvalid => pure none
  | .vBool _ => pure (some .tomlBool)
  | .vInt _ => pure (some .tomlInteger)
  | .vFloat _ => pure (some .tomlFloat)
  | .vArr l => do
      let t ← tomlArrayType (.vArr l)
      if typeEqual (some .tomlHash) t then pure (some .tomlArrayHash)
      else pure (some .tomlArray)
  | .vString _ => pure (some .tomlString)
  | .vMap _ => pure (some .tomlHash)
  | .vDatetime _ => pure (some .tomlDatetime)
  | .vStruct _ => pure (some .tomlHash)
termination_by v => (sizeOf v, 2)

/-- Model of `tomlArrayType` (encode.go): the element type of a TOML array;
`none` for a nil or empty array.  Panics (here: errors) on nil elements,
heterogeneous arrays, and directly nested arrays of tables.  The source
only ever applies it to array values; the catch-all case mirrors the
`isNil || !IsValid || Len() == 0` guard. -/
def tomlArrayType : GoValue → Except EncodeError (Option tomlType)
  | .vArr [] => pure none
  | .vArr (e0 :: rest) => do
      let firstType ← tomlTypeOfGo e0
      match firstType with
      | none => throw .errArrayNilElement
      | some ft => do
          checkElemTypes ft rest
          if typeEqual (some ft) (some .tomlArray)
              || typeEqual (some ft) (some .tomlArrayHash) then
            let nest ← tomlArrayType e0
            if typeEqual nest (some .tomlHash)
                || typeEqual nest (some .tomlArrayHash) then
              throw .errArrayNoTable
            else pure (some ft)
          else pure (some ft)
  | _ => pure none
termination_by v => (sizeOf v, 1)

/-- The `for i := 1; i < rvlen; i++` scan of `tomlArrayType` (encode.go):
each later element against the reference type of element 0, left to right;
a nil element aborts with `errArrayNilElement`, a differing type with
`errArrayMixedElementTypes`. -/
def checkElemTypes (firstType : tomlType) : List GoValue → Except EncodeError Unit
  | [] => pure ()
  | elem :: elems => do
      let elemType ← tomlTypeOfGo elem
      match elemType with
      | none => throw .errArrayNilElement
      | some t =>
          if !typeEqual (some firstType) (some t) then
            throw .errArrayMixedElementTypes
          else checkElemTypes firstType elems
termination_by l => (sizeOf l, 1)
end

/-- One step of the `quotedReplacer` (encode.go) substitution table:
tab, newline, carriage return, double quote and backslash become their
two-character escape sequences; every other character is kept. -/
def quotedReplacerChar (c : Char) : String :=
  if c = '\t' then "\\t"
  else if c = '\n' then "\\n"
  else if c = '\r' then "\\r"
  else if c = '"' then "\\\""
  else if c = '\\' then "\\\\"
  else String.singleton c

/-- The character-by-character pass of `quotedReplacer.Replace`. -/
def quotedReplacerList : List Char → String
  | [] => ""
  | c :: cs => quotedReplacerChar c ++ quotedReplacerList cs

/-- Model of `quotedReplacer.Replace` (encode.go): `strings.NewReplacer`
replaces leftmost matches in one pass; all five patterns are single
characters, so the pass is a character map. -/
def quotedReplacer (s : String) : String :=
  quotedReplacerList s.data

/-- The base-10 digits of a natural number, most significant first, as
produced by `strconv`'s division loop. -/
def formatDigits (n : Nat) : String :=
  if n < 10 then String.singleton (Char.ofNat (48 + n))
  else formatDigits (n / 10) ++ String.singleton (Char.ofNat (48 + n % 10))
termination_by n
decreasing_by
  simp_wf
  exact Nat.div_lt_self (by omega) (by omega)

/-- Model of `strconv.FormatInt(i, 10)` / `strconv.FormatUint(i, 10)`
as `eElement` (encode.go) uses them: minus sign for negatives, then the
base-10 digits. -/
def strconvFormatInt (i : Int) : String :=
  if i < 0 then "-" ++ formatDigits (Int.toNat (-i)) else formatDigits (Int.toNat i)

/-- Model of `strings.Contains(s, ".")`: the pattern is a single character,
so substring containment is character containment. -/
def stringsContainsDot (s : String) : Bool :=
  s.data.contains '.'

/-- Model of `floatAddDecimal` (encode.go): every TOML float needs a decimal
point, so `.0` is appended when the rendering has none. -/
def floatAddDecimal (fstr : String) : String :=
  if !stringsContainsDot fstr then fstr ++ ".0" else fstr

/-- Model of `strings.Repeat(s, n)`. -/
def stringsRepeat (s : String) (n : Nat) : String :=
  String.join (List.replicate n s)

/-- The characters Go's `fmt` treats as flags after a percent sign
(`doPrintf`, the `simpleFormat` loop); with no operands the fast path for
lower-case verbs never fires, so the flag prefix is consumed and the flags
themselves never surface in the output. -/
def fmtIsFlag (c : Char) : Bool :=
  c = '#' || c = '0' || c = '+' || c = '-' || c = ' '

/-- The byte-range digit test of `fmt`'s `parsenum`. -/
def isGoDigit (c : Char) : Bool :=
  '0' ≤ c && c ≤ '9'

/-- Model of `fmt`'s `parsenum`: consume leading digits, reporting
`(consumed, present, overflowed)`.  `tooLarge` trips when the accumulated
value exceeds 1e6 before a further digit; on overflow `parsenum` returns
`newi = end`, making the caller skip the rest of the format. -/
def fmtParsenum : List Char → Nat → Nat × Bool × Bool
  | [], _ => (0, false, false)
  | c :: rest, num =>
      if isGoDigit c then
        if num > 1000000 then (0, false, true)
        else
          let p := fmtParsenum rest (num * 10 + (c.toNat - 48))
          if p.2.2 then (0, false, true) else (p.1 + 1, true, false)
      else (0, false, false)

/-- Model of `fmt`'s `argNumber` with no operands, on a suffix `l` of the
format.  Without an opening bracket nothing happens.  With one,
`parseArgNumber` looks for the first closing bracket; the form parses when
the enclosed characters are one or more digits whose value does not
overflow (`parsenum` must consume exactly the enclosed span).  Since no
operand index can be in range with zero operands, `goodArgNum` becomes
false whenever a bracket is seen, and `found` (here: `afterIndex`) is
whether the form parsed.  Returns `(consumed, sawBracket, afterIndex)`. -/
def fmtArgNumberZ (l : List Char) : Nat × Bool × Bool :=
  if l.head? = some '[' then
    if l.length < 3 then (1, true, false)
    else
      match List.findIdx? (fun c => c = ']') (l.drop 1) with
      | none => (1, true, false)
      | some j =>
          let p := fmtParsenum ((l.drop 1).take j) 0
          if p.1 = j && p.2.1 then (j + 2, true, true) else (j + 2, true, false)
  else (0, false, false)

/-- The tail of one percent directive of `fmt.doPrintf` with no operands,
after width and precision: a possible final `argNumber` (skipped when an
argument index was just read), then the verb.  An exhausted format emits
`%!(NOVERB)`; the verb `%` emits a percent sign; with `goodArgNum` false
the verb emits `%!v(BADINDEX)`; otherwise (no operand left for it)
`%!v(MISSING)`.  `orig` is the whole after-percent suffix (for the
consumed-everything count), `out` the diagnostics emitted so far, `cnt`
the characters consumed so far; returns `(emitted, consumed)`. -/
def fmtAfterPrec (orig out : List Char) (good after : Bool) (cnt : Nat)
    (l5 : List Char) : List Char × Nat :=
  let q3 := if after then ((0, false, false) : Nat × Bool × Bool)
            else fmtArgNumberZ l5
  let good3 := good && !q3.2.1
  match l5.drop q3.1 with
  | [] => (out ++ "%!(NOVERB)".data, orig.length)
  | v :: _ =>
      if v = '%' then (out ++ ['%'], cnt + q3.1 + 1)
      else if good3 then (out ++ '%' :: '!' :: v :: "(MISSING)".data, cnt + q3.1 + 1)
      else (out ++ '%' :: '!' :: v :: "(BADINDEX)".data, cnt + q3.1 + 1)

/-- The precision step of one percent directive of `fmt.doPrintf` with no
operands: a dot followed by at least one more character starts a
precision (`i+1 < end`), which may carry its own argument index; a
starred precision consumes no operand and emits `%!(BADPREC)`; a numeric
precision that overflows `parsenum` skips to the end of the format (the
loop then emits `%!(NOVERB)`).  A dot in final position is left for the
verb step. -/
def fmtAfterWidth (orig out : List Char) (good after : Bool) (cnt : Nat)
    (l3 : List Char) : List Char × Nat :=
  if l3.head? = some '.' && (l3.drop 1).length != 0 then
    let r3 := l3.drop 1
    let good1 := good && !after
    let q2 := fmtArgNumberZ r3
    let good2 := good1 && !q2.2.1
    let l4 := r3.drop q2.1
    if l4.head? = some '*' then
      fmtAfterPrec orig (out ++ "%!(BADPREC)".data) good2 false
        (cnt + 1 + q2.1 + 1) (l4.drop 1)
    else
      let p := fmtParsenum l4 0
      if p.2.2 then (out ++ "%!(NOVERB)".data, orig.length)
      else fmtAfterPrec orig out good2 q2.2.2 (cnt + 1 + q2.1 + p.1)
        (l4.drop p.1)
  else fmtAfterPrec orig out good after cnt l3

/-- One percent directive of `fmt.doPrintf` with no operands, on the
suffix `l` following the percent sign: the flag prefix is consumed, a
possible argument index read, then the width — a starred width consumes
no operand and emits `%!(BADWIDTH)` (and clears `afterIndex`), a numeric
width that overflows skips to the end of the format, and a numeric width
right after an argument index clears `goodArgNum` — then precision and
verb (`fmtAfterWidth`, `fmtAfterPrec`).  Returns `(emitted, consumed)`. -/
def fmtDirectiveCore (l : List Char) : List Char × Nat :=
  let flags := (l.takeWhile fmtIsFlag).length
  let l1 := l.drop flags
  let q1 := fmtArgNumberZ l1
  let l2 := l1.drop q1.1
  let good1 := !q1.2.1
  let after1 := q1.2.2
  if l2.head? = some '*' then
    fmtAfterWidth l ("%!(BADWIDTH)".data) good1 false (flags + q1.1 + 1)
      (l2.drop 1)
  else
    let w := fmtParsenum l2 0
    if w.2.2 then ("%!(NOVERB)".data, l.length)
    else fmtAfterWidth l [] (good1 && !(after1 && w.2.1)) after1
      (flags + q1.1 + w.1) (l2.drop w.1)

/-- The format-scanning loop of `fmt.doPrintf` with no operands: literal
characters are copied, each percent sign starts a directive.  Structured
on a fuel bound: every step consumes at least one character, so
`l.length` fuel suffices and the fuel-exhausted branch is unreachable
from `fprintfNoArgs`. -/
def fmtLoopAux : Nat → List Char → List Char
  | _, [] => []
  | 0, _ :: _ => []
  | fuel + 1, c :: rest =>
      if c = '%' then
        let p := fmtDirectiveCore rest
        p.1 ++ fmtLoopAux fuel (rest.drop p.2)
      else c :: fmtLoopAux fuel rest

/-- Model of `fmt.Fprintf(w, format)` with *no operands*, as `enc.wf`
(encode.go) is called by `writeMultiLineString`, where the data travels
in format position: literal text is copied, percent directives are
interpreted (`%%` emits `%`, any verb emits its `%!v(MISSING)` /
`%!v(BADINDEX)` diagnostic, a trailing percent `%!(NOVERB)`, starred
width/precision `%!(BADWIDTH)` / `%!(BADPREC)`).  On a format with no
percent sign this is the identity. -/
def fprintfNoArgs (format : String) : String :=
  String.mk (fmtLoopAux format.data.length format.data)

/-- `Key` (the decoder's key-path type): an ordered list of segments. -/
abbrev Key := List String

/-- Model of `Key.add` (decoder): append one segment, producing a new key.  -/
def Key.add (k : Key) (s : String) : Key := k ++ [s]

/-- Modelled from the spec: `Key.String()` of the decoder (not under
`src/`); the spec writes headers as `[<dotted path>]`, so the rendering is
the segments joined with dots. -/
def Key.dotted (k : Key) : String := String.intercalate "." k

/-- Model of `isValidTableName` (encode.go): non-empty and free of `[`,
`]` and `.`. -/
def isValidTableName (s : String) : Bool :=
  if s.length = 0 then false
  else s.data.all (fun r => !(r = '[' || r = ']' || r = '.'))

/-- Model of `isValidKeyName` (encode.go): only emptiness is checked. -/
def isValidKeyName (s : String) : Bool :=
  if s.length = 0 then false else true

/-- Model of `panicIfInvalidKey` (encode.go).  With `hash` set every
segment must be a valid table name; otherwise only the last segment is
checked as a key name.  The raised error carries the dotted key, as the Go
message does.  (Callers always pass a non-empty key; on an empty key the
Go code would index out of range, the model checks the empty default.) -/
def panicIfInvalidKey (key : Key) (hash : Bool) : Except EncodeError Unit :=
  if hash then
    if key.all isValidTableName then pure ()
    else throw (.errInvalidTableName (Key.dotted key))
  else
    if isValidKeyName (key.getLastD "") then pure ()
    else throw (.errInvalidKeyName (Key.dotted key))

/-- The encoder configuration: the one knob is the indent unit. -/
structure Encoder where
  Indent : String
deriving DecidableEq, Repr

/-- Model of `NewEncoder` (encode.go): two-space indent. -/
def NewEncoder : Encoder := { Indent := "  " }

/-- The mutable state the encoder threads: the buffered output, the
`hasWritten` flag, and the active `modifier` slot. -/
structure EncState where
  out : String
  hasWritten : Bool
  modifier : String
deriving DecidableEq, Repr

/-- The state of a fresh encoder: empty buffer, nothing written, no
modifier. -/
def initState : EncState :=
  { out := "", hasWritten := false, modifier := MOD_NONE }

/-- Model of `enc.wf` (encode.go): append the formatted text and record
that something was written (see the module comment on `Fprintf`). -/
def wf (st : EncState) (s : String) : EncState :=
  { st with out := st.out ++ s, hasWritten := true }

/-- Model of `enc.newline` (encode.go): a newline, but only once something
has been written. -/
def newline (st : EncState) : EncState :=
  if st.hasWritten then wf st "\n" else st

/-- Model of `enc.indentStr` (encode.go): the indent unit repeated
`len(key) - 1` times. -/
def indentStr (enc : Encoder) (key : Key) : String :=
  stringsRepeat enc.Indent (key.length - 1)

/-- Model of `enc.writeQuoted` (encode.go): the escaped string in double
quotes. -/
def writeQuoted (st : EncState) (s : String) : EncState :=
  wf st ("\"" ++ quotedReplacer s ++ "\"")

/-- Model of `enc.writeMultiLineString` (encode.go): a triple-quote marker
(`'''` when raw, `"""` otherwise), then the data — `s + " "` when raw,
the `quotedReplacer`-escaped string otherwise — handed to `enc.wf` in
*format* position with no operands, so `fmt` interprets percent
directives in it (`fprintfNoArgs`); then the marker again.  The markers
hold no percent sign, so their writes are themselves. -/
def writeMultiLineString (st : EncState) (s : String) (raw : Bool) : EncState :=
  let marker := if raw then "\x27\x27\x27" else "\"\"\""
  let st1 := wf st marker
  let st2 := if raw then wf st1 (fprintfNoArgs (s ++ " "))
             else wf st1 (fprintfNoArgs (quotedReplacer s))
  wf st2 marker

/-- Model of `reflect.Value.String()` as `keyEqElement` (encode.go) calls
it on the modified value: the string itself for a string-kind value, a
placeholder (Go: `"<T Value>"`) otherwise; the modifier machinery only
activates on string-kind fields, so the placeholder is unreachable. -/
def goString : GoValue → String
  | .vString s => s
  | _ => "<value>"

/-- Model of `rt.FieldByIndex` combined with `rv.FieldByIndex` (used by
`writeFields` in `eStruct`, encode.go): resolve an index path by walking
into nested struct values; `none` where Go's reflect would panic (index
out of range or descending into a non-struct). -/
def fieldByIndex (fields : List GoField) : List Nat → Option GoField
  | [] => none
  | [i] => fields.get? i
  | i :: j :: rest =>
      match fields.get? i with
      | some f =>
          match f.value with
          | .vStruct inner => fieldByIndex inner (j :: rest)
          | _ => none
      | none => none

/-- Model of the `addFields` closure of `eStruct` (encode.go): walk the
declared fields with their running index `i`, skipping unexported fields.
An anonymous (embedded) field is indirected and its type taken
(`t := frv.Type()`): on an embedded nil pointer/interface the indirection
leaves the zero `reflect.Value` and `Type()` panics unrecovered
(`errReflectTypeZeroValue`); a non-struct type is `errAnonNonStruct`; a
struct's own fields are collected with the start path `f.Index` (the
source passes `f.Index`, not `append(start, f.Index...)`).  Every other
field's index path `append(start, f.Index...)` is appended to the sub
list when its TOML type is table-shaped and to the direct list
otherwise. -/
def addFields (fields : List GoField) (i : Nat) (start : List Nat) :
    Except EncodeError (List (List Nat) × List (List Nat)) :=
  match fields with
  | [] => pure ([], [])
  | f :: fs => do
      let (ds1, ss1) ←
        if f.exported = false then pure (([], []) : List (List Nat) × List (List Nat))
        else if f.anonymous then
          match hv : f.value with
          | .vStruct inner => addFields inner 0 [i]
          | .vInvalid => throw .errReflectTypeZeroValue
          | _ => throw .errAnonNonStruct
        else do
          let t ← tomlTypeOfGo f.value
          if typeIsHash t then pure ([], [start ++ [i]])
          else pure ([start ++ [i]], [])
      let (ds2, ss2) ← addFields fs (i + 1) start
      pure (ds1 ++ ds2, ss1 ++ ss2)
termination_by (sizeOf fields, 0)
decreasing_by
  all_goals simp_wf
  · apply Prod.Lex.left
    omega
  · apply Prod.Lex.left
    cases f with
    | mk n t m a e v =>
        simp [GoField.value] at hv
        subst hv
        simp
        omega

/-- The work `addFields` does for one field `f` at running index `i`:
nothing for an unexported field; for an exported anonymous field the
spliced collection of the embedded struct's fields (or the
`errReflectTypeZeroValue` reflect panic on the zero value, or the
`errAnonNonStruct` abort on any other non-struct); otherwise one index
path, classified direct or sub.  `addFields (f :: fs)` is this followed
by `addFields fs` (theorem `addFields_cons`). -/
def addFieldsHead (f : GoField) (i : Nat) (start : List Nat) :
    Except EncodeError (List (List Nat) × List (List Nat)) :=
  if f.exported = false then pure ([], [])
  else if f.anonymous then
    match f.value with
    | .vStruct inner => addFields inner 0 [i]
    | .vInvalid => throw .errReflectTypeZeroValue
    | _ => throw .errAnonNonStruct
  else do
    let t ← tomlTypeOfGo f.value
    if typeIsHash t then pure ([], [start ++ [i]])
    else pure ([start ++ [i]], [])

/-- The partition loop at the top of `eMap` (encode.go): each key goes to
the sub list when its value's TOML type is table-shaped, to the direct
list otherwise, in iteration order. -/
def partitionMapKeys :
    List (String × GoValue) → Except EncodeError (List String × List String)
  | [] => pure ([], [])
  | (k, v) :: rest => do
      let t ← tomlTypeOfGo v
      let (ds, ss) ← partitionMapKeys rest
      if typeIsHash t then pure (ds, k :: ss) else pure (k :: ds, ss)

/-- Model of `sort.Strings`: sort ascending in the lexicographic string
order (Go compares byte-wise; UTF-8 byte order agrees with code-point
order, which is the order of `String`'s linear order). -/
def sortStrings (l : List String) : List String :=
  l.insertionSort (fun a b => a ≤ b)

mutual
/-- Model of `enc.encode` (encode.go).  `time.Time` values go straight to
`keyEqElement` (the `Interface()` type switch); primitives and strings go
to `keyEqElement`; an array goes to `eArrayOfTables` when its TOML type is
array-of-tables and to `keyEqElement` otherwise; nil interfaces, maps and
pointers are skipped (for `vNil` this collapses the nil map, which returns
silently, with the nil slice, which the source would render as an empty
array; no claim touches either).  Maps and structs go to `eTable`.  The
`default:` panic for unsupported kinds — reached by the zero value, kind
`Invalid` — is a plain panic that `safeEncode` re-raises,
`errUnsupportedKind`. -/
def encode (enc : Encoder) (st : EncState) (key : Key) :
    GoValue → Except EncodeError EncState
  | .vDatetime d => keyEqElement enc st key (.vDatetime d)
  | .vBool b => keyEqElement enc st key (.vBool b)
  | .vInt i => keyEqElement enc st key (.vInt i)
  | .vFloat f => keyEqElement enc st key (.vFloat f)
  | .vString s => keyEqElement enc st key (.vString s)
  | .vArr l => do
      let t ← tomlTypeOfGo (.vArr l)
      if typeEqual (some .tomlArrayHash) t then eArrayOfTables enc st key l
      else keyEqElement enc st key (.vArr l)
  | .vNil => pure st
  | .vInvalid => throw .errUnsupportedKind
  | .vMap entries => eTable enc st key (.vMap entries)
  | .vStruct fields => eTable enc st key (.vStruct fields)
termination_by v => (sizeOf v, 9, 0)

/-- Model of `enc.eElement` (encode.go): render one value that can stand as
an array element.  A datetime writes its UTC ISO-8601 rendering; booleans
`true`/`false`; integers base-10; floats the decimal form through
`floatAddDecimal`; arrays recurse; strings are quoted.  The `default:`
panic ("Unexpected primitive type") is `errUnexpectedPrimitive`. -/
def eElement (enc : Encoder) (st : EncState) :
    GoValue → Except EncodeError EncState
  | .vDatetime d => pure (wf st d)
  | .vBool b => pure (wf st (if b then "true" else "false"))
  | .vInt i => pure (wf st (strconvFormatInt i))
  | .vFloat fstr => pure (wf st (floatAddDecimal fstr))
  | .vArr l => eArrayOrSliceElement enc st l
  | .vString s => pure (writeQuoted st s)
  | .vMap _ => throw .errUnexpectedPrimitive
  | .vStruct _ => throw .errUnexpectedPrimitive
  | .vNil => throw .errUnexpectedPrimitive
  | .vInvalid => throw .errUnexpectedPrimitive
termination_by v => (sizeOf v, 7, 0)

/-- Model of `enc.eArrayOrSliceElement` (encode.go): the elements between
brackets, separated by `", "`. -/
def eArrayOrSliceElement (enc : Encoder) (st : EncState)
    (elems : List GoValue) : Except EncodeError EncState := do
  let st1 := wf st "["
  let st2 ← eArrSliceLoop enc st1 elems
  pure (wf st2 "]")
termination_by (sizeOf elems, 6, 0)

/-- The element loop of `eArrayOrSliceElement` (encode.go): `", "` after
every element except the last. -/
def eArrSliceLoop (enc : Encoder) (st : EncState) :
    List GoValue → Except EncodeError EncState
  | [] => pure st
  | [e] => eElement enc st e
  | e :: e2 :: es => do
      let st1 ← eElement enc st e
      eArrSliceLoop enc (wf st1 ", ") (e2 :: es)
termination_by l => (sizeOf l, 5, 0)

/-- Model of `enc.eArrayOfTables` (encode.go): an empty key is
`errNoKey`; the key segments are validated as table names; then each
non-nil element gets a blank line (when anything was written), a
`[[dotted.key]]` header line, and its table body. -/
def eArrayOfTables (enc : Encoder) (st : EncState) (key : Key)
    (elems : List GoValue) : Except EncodeError EncState := do
  if key.length = 0 then throw .errNoKey
  else do
    let _ ← panicIfInvalidKey key true
    eArrTablesLoop enc st key elems
termination_by (sizeOf elems, 8, 0)

/-- The element loop of `eArrayOfTables` (encode.go). -/
def eArrTablesLoop (enc : Encoder) (st : EncState) (key : Key) :
    List GoValue → Except EncodeError EncState
  | [] => pure st
  | trv :: rest =>
      if isNil trv then eArrTablesLoop enc st key rest
      else do
        let st1 := newline st
        let st2 := wf st1 (indentStr enc key ++ "[[" ++ Key.dotted key ++ "]]")
        let st3 := newline st2
        let st4 ← eMapOrStruct enc st3 key trv
        eArrTablesLoop enc st4 key rest
termination_by l => (sizeOf l, 7, 0)

/-- Model of `enc.eTable` (encode.go): at depth one an extra blank line
separates top-level tables (suppressed while nothing has been written);
a non-root key is validated and written as an indented `[dotted.key]`
header; then the body. -/
def eTable (enc : Encoder) (st : EncState) (key : Key) (rv : GoValue) :
    Except EncodeError EncState := do
  let st1 := if key.length = 1 then newline st else st
  let st2 ←
    if key.length > 0 then do
      let _ ← panicIfInvalidKey key true
      let st2 := wf st1 (indentStr enc key ++ "[" ++ Key.dotted key ++ "]")
      pure (newline st2)
    else pure st1
  eMapOrStruct enc st2 key rv
termination_by (sizeOf rv, 8, 0)

/-- Model of `enc.eMapOrStruct` (encode.go); the default branch is the
source's plain panic ("eTable: unhandled reflect.Value Kind"). -/
def eMapOrStruct (enc : Encoder) (st : EncState) (key : Key) :
    GoValue → Except EncodeError EncState
  | .vMap entries => eMap enc st key entries
  | .vStruct fields => eStruct enc st key fields
  | _ => throw .errNonTableValue
termination_by v => (sizeOf v, 7, 0)

/-- Model of `enc.eMap` (encode.go): partition the keys into direct and
sub in iteration order, then write the direct keys, then the sub keys
(each group sorted by `writeMapKeys`).  The `errNonString` check on the
map's key type has no representable input here: modelled maps are
string-keyed by construction. -/
def eMap (enc : Encoder) (st : EncState) (key : Key)
    (entries : List (String × GoValue)) : Except EncodeError EncState := do
  let (mapKeysDirect, mapKeysSub) ← partitionMapKeys entries
  let st1 ← writeMapKeys enc st key entries mapKeysDirect
  writeMapKeys enc st1 key entries mapKeysSub
termination_by (sizeOf entries, 6, 0)

/-- The `writeMapKeys` closure of `eMap` (encode.go): sort the keys, then
write each one. -/
def writeMapKeys (enc : Encoder) (st : EncState) (key : Key)
    (entries : List (String × GoValue)) (mapKeys : List String) :
    Except EncodeError EncState :=
  mapKeysLoop enc st key entries (sortStrings mapKeys)
termination_by (sizeOf entries, 5, 0)

/-- The per-key loop of `writeMapKeys` (encode.go): look the key up in the
map, skip nil values, and encode the rest under the extended key.  (A key
that is no longer in the map cannot arise; the keys come from the map.) -/
def mapKeysLoop (enc : Encoder) (st : EncState) (key : Key)
    (entries : List (String × GoValue)) :
    List String → Except EncodeError EncState
  | [] => pure st
  | k :: ks =>
      match hlk : List.lookup k entries with
      | none => mapKeysLoop enc st key entries ks
      | some mrv =>
          if isNil mrv then mapKeysLoop enc st key entries ks
          else do
            let st1 ← encode enc st (Key.add key k) mrv
            mapKeysLoop enc st1 key entries ks
termination_by ks => (sizeOf entries, 4, ks.length)
decreasing_by
  all_goals simp_wf
  all_goals
    first
    | (apply Prod.Lex.right
       apply Prod.Lex.right
       omega)
    | (apply Prod.Lex.left
       have hlkp : ∀ (es : List (String × GoValue)) (a : String) (v : GoValue),
           List.lookup a es = some v → sizeOf v < sizeOf es := by
         intro es
         induction es with
         | nil => intro a v hv; simp [List.lookup] at hv
         | cons hd tl ih =>
             intro a v hv
             rw [List.lookup] at hv
             by_cases hk : a == hd.fst
             · simp [hk] at hv
               subst hv
               cases hd with
               | mk x y => simp; omega
             · simp [hk] at hv
               have := ih _ _ hv
               simp
               omega
       have := hlkp entries _ _ hlk
       omega)

/-- Model of `enc.eStruct` (encode.go): collect the direct and sub field
index paths with `addFields`, then write the direct fields before the sub
fields. -/
def eStruct (enc : Encoder) (st : EncState) (key : Key)
    (fields : List GoField) : Except EncodeError EncState := do
  let (fieldsDirect, fieldsSub) ← addFields fields 0 []
  let st1 ← writeFields enc st key fields fieldsDirect
  writeFields enc st1 key fields fieldsSub
termination_by (sizeOf fields, 6, 0)

/-- The `writeFields` closure of `eStruct` (encode.go): resolve each index
path (`none` is Go's reflect panic on a bad path), skip nil values and
fields tagged `toml:"-"`, take the key name from the tag or the field
name, arm the modifier slot when the field's `modifier` tag is valid for
its kind (reset it otherwise), and encode under the extended key. -/
def writeFields (enc : Encoder) (st : EncState) (key : Key)
    (fields : List GoField) :
    List (List Nat) → Except EncodeError EncState
  | [] => pure st
  | fieldIndex :: rest =>
      match hfb : fieldByIndex fields fieldIndex with
      | none => throw .errReflectInvalidField
      | some sft =>
          if isNil sft.value then writeFields enc st key fields rest
          else if sft.tomlTag = "-" then writeFields enc st key fields rest
          else
            let keyName := if sft.tomlTag = "" then sft.name else sft.tomlTag
            let st1 :=
              match validmodifiers sft.modifierTag with
              | some kind =>
                  if goKind sft.value = kind then
                    { st with modifier := sft.modifierTag }
                  else { st with modifier := MOD_NONE }
              | none => { st with modifier := MOD_NONE }
            do
              let st2 ← encode enc st1 (Key.add key keyName) sft.value
              writeFields enc st2 key fields rest
termination_by paths => (sizeOf fields, 4, paths.length)
decreasing_by
  all_goals simp_wf
  all_goals
    first
    | (apply Prod.Lex.right
       apply Prod.Lex.right
       omega)
    | (apply Prod.Lex.left
       have hfbi : ∀ (p : List Nat) (fs : List GoField) (g : GoField),
           fieldByIndex fs p = some g → sizeOf g < sizeOf fs := by
         intro p
         induction p with
         | nil => intro fs g hg; simp [fieldByIndex] at hg
         | cons i1 rest1 ih =>
             intro fs g hg
             cases rest1 with
             | nil =>
                 simp only [fieldByIndex] at hg
                 exact List.sizeOf_lt_of_mem (List.get?_mem hg)
             | cons j rest2 =>
                 simp only [fieldByIndex] at hg
                 cases hgi : fs.get? i1 with
                 | none => rw [hgi] at hg; simp at hg
                 | some f1 =>
                     rw [hgi] at hg
                     simp only [] at hg
                     cases hfv : f1.value
                     all_goals rw [hfv] at hg
                     all_goals simp at hg
                     rename_i inner
                     have h1 := ih _ _ hg
                     have h2 : sizeOf inner < sizeOf f1 := by
                       cases f1 with
                       | mk n t m a e v =>
                           simp [GoField.value] at hfv
                           subst hfv
                           simp
                           omega
                     have h3 : sizeOf f1 < sizeOf fs :=
                       List.sizeOf_lt_of_mem (List.get?_mem hgi)
                     omega
       have h4 := hfbi fieldIndex fields sft hfb
       have h5 : sizeOf sft.value < sizeOf sft := by
         cases sft with
         | mk n t m a e v =>
             first
             | (simp [GoField.value]; omega)
             | simp [GoField.value]
       omega)

/-- Model of `enc.keyEqElement` (encode.go): an empty key is `errNoKey`;
the last segment is validated as a key name and written as
`<indent><key> = `; the value is rendered per the active modifier
(multiline quoted, multiline raw, or plain `eElement`); a newline ends the
line and the modifier slot is reset to `MOD_NONE`. -/
def keyEqElement (enc : Encoder) (st : EncState) (key : Key)
    (val : GoValue) : Except EncodeError EncState := do
  if key.length = 0 then throw .errNoKey
  else do
    let _ ← panicIfInvalidKey key false
    let st1 := wf st (indentStr enc key ++ key.getLastD "" ++ " = ")
    let st2 ←
      if st1.modifier = MOD_MULTILINE_STRING then
        pure (writeMultiLineString st1 (goString val) false)
      else if st1.modifier = MOD_MULTILINE_RAWSTRING then
        pure (writeMultiLineString st1 (goString val) true)
      else eElement enc st1 val
    let st3 := newline st2
    pure { st3 with modifier := MOD_NONE }
end

/-- Model of `Encoder.Encode` (encode.go) on a fresh encoder: run the
recursive descent from the empty key on the (pre-indirected) value and
return the buffered output; the buffer flush cannot fail in the model. -/
def Encode (enc : Encoder) (v : GoValue) : Except EncodeError String := do
  let st ← encode enc initState [] v
  pure st.out

/-- Whether a map entry's value makes it a "sub" entry of `eMap`: its TOML
type is table-shaped.  (`false` also when the type computation would
abort; theorems that use this assume the computation succeeds.) -/
def entryIsSub (v : GoValue) : Bool :=
  match tomlTypeOfGo v with
  | .ok t => typeIsHash t
  | .error _ => false

/-- The "direct" keys of a map node, in storage order: keys whose value is
not table-shaped. -/
def directKeys (entries : List (String × GoValue)) : List String :=
  (entries.filter (fun p => !entryIsSub p.2)).map Prod.fst

/-- The "sub" keys of a map node, in storage order: keys whose value is
table-shaped. -/
def subKeys (entries : List (String × GoValue)) : List String :=
  (entries.filter (fun p => entryIsSub p.2)).map Prod.fst

/-- The modifier with which `writeFields` arms the encoder for one field:
the field's `modifier` tag when it is a valid modifier for the field's
reflect kind, `MOD_NONE` otherwise.  It depends on the field alone, on no
other encoder state. -/
def fieldModifier (sft : GoField) : String :=
  match validmodifiers sft.modifierTag with
  | some kind => if goKind sft.value = kind then sft.modifierTag else MOD_NONE
  | none => MOD_NONE

/-- Whether a field list contains (recursively, through embedded structs)
an exported anonymous field whose value is a *typed* non-struct — the
condition under which `addFields` aborts with `errAnonNonStruct`.  An
anonymous zero value (`vInvalid`, an embedded nil pointer/interface) is
not counted here: on those `addFields` hits the unrecovered reflect panic
instead (see `hasAnonInvalid`). -/
def hasBadAnon : List GoField → Bool
  | [] => false
  | f :: fs =>
      (if f.exported && f.anonymous then
        match hv : f.value with
        | .vStruct inner => hasBadAnon inner
        | .vInvalid => false
        | _ => true
       else false)
      || hasBadAnon fs
termination_by fields => (sizeOf fields, 0)
decreasing_by
  all_goals simp_wf
  · apply Prod.Lex.left
    cases f with
    | mk n t m a e v =>
        simp [GoField.value] at hv
        subst hv
        simp
        omega
  · apply Prod.Lex.left
    omega

/-- Whether a field list contains (recursively, through embedded structs)
an exported anonymous field holding the zero value — an embedded nil
pointer/interface, on which `addFields` calls `Type()` of an invalid
`reflect.Value` and crashes (`errReflectTypeZeroValue`) rather than
raising `errAnonNonStruct`. -/
def hasAnonInvalid : List GoField → Bool
  | [] => false
  | f :: fs =>
      (if f.exported && f.anonymous then
        match hv : f.value with
        | .vStruct inner => hasAnonInvalid inner
        | .vInvalid => true
        | _ => false
       else false)
      || hasAnonInvalid fs
termination_by fields => (sizeOf fields, 0)
decreasing_by
  all_goals simp_wf
  · apply Prod.Lex.left
    cases f with
    | mk n t m a e v =>
        simp [GoField.value] at hv
        subst hv
        simp
        omega
  · apply Prod.Lex.left
    omega

/-- Whether every TOML-type computation `addFields` can reach on a field
list succeeds (no malformed array sits in a field): under this condition —
and away from anonymous zero values (`hasAnonInvalid`), whose reflect
panic pre-empts everything — the only error `addFields` can raise is
`errAnonNonStruct`. -/
def fieldsTypeOk : List GoField → Bool
  | [] => true
  | f :: fs =>
      (if f.exported then
        if f.anonymous then
          match hv : f.value with
          | .vStruct inner => fieldsTypeOk inner
          | _ => true
        else (tomlTypeOfGo f.value).isOk
       else true)
      && fieldsTypeOk fs
termination_by fields => (sizeOf fields, 0)
decreasing_by
  all_goals simp_wf
  · apply Prod.Lex.left
    cases f with
    | mk n t m a e v =>
        simp [GoField.value] at hv
        subst hv
        simp
        omega
  · apply Prod.Lex.left
    omega

theorem quotedReplacerChar_ne_newline (c : Char) :
    Char.ofNat 10 ∉ (quotedReplacerChar c).data := by
  unfold quotedReplacerChar
  split_ifs with h1 h2 h3 h4 h5
  · decide
  · decide
  · decide
  · decide
  · decide
  · simp [String.singleton]
    exact fun h => h2 h.symm

theorem quotedReplacerList_no_newline (l : List Char) :
    Char.ofNat 10 ∉ (quotedReplacerList l).data := by
  induction l with
  | nil => simp [quotedReplacerList]
  | cons c cs ih =>
      intro hmem
      rw [quotedReplacerList, String.data_append] at hmem
      rcases List.mem_append.mp hmem with h | h
      · exact quotedReplacerChar_ne_newline c h
      · exact ih h

theorem quotedReplacer_no_newline (s : String) :
    Char.ofNat 10 ∉ (quotedReplacer s).data :=
  quotedReplacerList_no_newline s.data

theorem fmtAfterPrec_no_newline (orig out : List Char) (good after : Bool)
    (cnt : Nat) (l5 : List Char) (hout : Char.ofNat 10 ∉ out)
    (hl : Char.ofNat 10 ∉ l5) :
    Char.ofNat 10 ∉ (fmtAfterPrec orig out good after cnt l5).1 := by
  unfold fmtAfterPrec
  dsimp only []
  generalize (if after then ((0, false, false) : Nat × Bool × Bool)
      else fmtArgNumberZ l5) = q3
  rcases hd : l5.drop q3.1 with _ | ⟨v, r⟩ <;> dsimp only []
  · intro hmem
    rcases List.mem_append.mp hmem with h | h
    · exact hout h
    · revert h
      decide
  · have hv : v ∈ l5 := List.drop_subset _ _ (by rw [hd]; exact List.mem_cons_self v r)
    split_ifs with h1 h2
    · intro hmem
      rcases List.mem_append.mp hmem with h | h
      · exact hout h
      · simp at h
    · intro hmem
      rcases List.mem_append.mp hmem with h | h
      · exact hout h
      · rcases List.mem_cons.mp h with h' | h'
        · exact absurd h' (by decide)
        · rcases List.mem_cons.mp h' with h2' | h2'
          · exact absurd h2' (by decide)
          · rcases List.mem_cons.mp h2' with h3' | h3'
            · rw [h3'] at hl; exact hl hv
            · revert h3'; decide
    · intro hmem
      rcases List.mem_append.mp hmem with h | h
      · exact hout h
      · rcases List.mem_cons.mp h with h' | h'
        · exact absurd h' (by decide)
        · rcases List.mem_cons.mp h' with h2' | h2'
          · exact absurd h2' (by decide)
          · rcases List.mem_cons.mp h2' with h3' | h3'
            · rw [h3'] at hl; exact hl hv
            · revert h3'; decide

theorem fmtAfterWidth_no_newline (orig out : List Char) (good after : Bool)
    (cnt : Nat) (l3 : List Char) (hout : Char.ofNat 10 ∉ out)
    (hl : Char.ofNat 10 ∉ l3) :
    Char.ofNat 10 ∉ (fmtAfterWidth orig out good after cnt l3).1 := by
  unfold fmtAfterWidth
  dsimp only []
  have hd1 : Char.ofNat 10 ∉ l3.drop 1 := fun h => hl (List.drop_subset _ _ h)
  split_ifs with h1 h2 h3
  · apply fmtAfterPrec_no_newline
    · intro hmem
      rcases List.mem_append.mp hmem with h | h
      · exact hout h
      · revert h
        decide
    · intro h
      exact hd1 (List.drop_subset _ _ (List.drop_subset _ _ h))
  · intro hmem
    rcases List.mem_append.mp hmem with h | h
    · exact hout h
    · revert h
      decide
  · apply fmtAfterPrec_no_newline _ _ _ _ _ _ hout
    intro h
    exact hd1 (List.drop_subset _ _ (List.drop_subset _ _ h))
  · exact fmtAfterPrec_no_newline _ _ _ _ _ _ hout hl

theorem fmtDirectiveCore_no_newline (l : List Char)
    (hl : Char.ofNat 10 ∉ l) :
    Char.ofNat 10 ∉ (fmtDirectiveCore l).1 := by
  unfold fmtDirectiveCore
  dsimp only []
  have h1 : Char.ofNat 10 ∉ l.drop (l.takeWhile fmtIsFlag).length :=
    fun h => hl (List.drop_subset _ _ h)
  split_ifs with hc1 hc2
  · apply fmtAfterWidth_no_newline
    · decide
    · intro h
      exact h1 (List.drop_subset _ _ (List.drop_subset _ _ h))
  · dsimp only []
    decide
  · apply fmtAfterWidth_no_newline
    · simp
    · intro h
      exact h1 (List.drop_subset _ _ (List.drop_subset _ _ h))

theorem fmtLoopAux_no_newline :
    ∀ (fuel : Nat) (l : List Char), Char.ofNat 10 ∉ l →
      Char.ofNat 10 ∉ fmtLoopAux fuel l := by
  intro fuel
  induction fuel with
  | zero =>
      intro l hl
      cases l with
      | nil => simp [fmtLoopAux]
      | cons c rest => simp [fmtLoopAux]
  | succ n ih =>
      intro l hl
      cases l with
      | nil => simp [fmtLoopAux]
      | cons c rest =>
          rw [fmtLoopAux]
          have hrest : Char.ofNat 10 ∉ rest :=
            fun h => hl (List.mem_cons_of_mem c h)
          dsimp only []
          split_ifs with hc
          · intro hmem
            rcases List.mem_append.mp hmem with h | h
            · exact fmtDirectiveCore_no_newline rest hrest h
            · exact ih _ (fun hq => hrest (List.drop_subset _ _ hq)) h
          · intro hmem
            rcases List.mem_cons.mp hmem with h | h
            · rw [h] at hl
              exact hl (List.mem_cons_self c rest)
            · exact ih rest hrest h

theorem fmtLoopAux_id_of_no_percent :
    ∀ (fuel : Nat) (l : List Char), l.length ≤ fuel → ('%' : Char) ∉ l →
      fmtLoopAux fuel l = l := by
  intro fuel
  induction fuel with
  | zero =>
      intro l hlen hp
      cases l with
      | nil => rfl
      | cons c rest => simp at hlen
  | succ n ih =>
      intro l hlen hp
      cases l with
      | nil => rfl
      | cons c rest =>
          rw [fmtLoopAux]
          have hc : ¬ c = '%' := fun h => hp (h ▸ List.mem_cons_self c rest)
          rw [if_neg hc]
          have hlen2 : rest.length ≤ n := by
            simp [List.length_cons] at hlen
            omega
          rw [ih rest hlen2 (fun h => hp (List.mem_cons_of_mem c h))]

theorem fprintfNoArgs_id_of_no_percent (s : String)
    (hp : ('%' : Char) ∉ s.data) : fprintfNoArgs s = s := by
  unfold fprintfNoArgs
  rw [fmtLoopAux_id_of_no_percent s.data.length s.data le_rfl hp]

theorem fprintfNoArgs_no_newline (s : String)
    (h : Char.ofNat 10 ∉ s.data) : Char.ofNat 10 ∉ (fprintfNoArgs s).data :=
  fmtLoopAux_no_newline _ _ h

theorem quotedReplacerChar_no_percent (c : Char) (hc : c ≠ '%') :
    ('%' : Char) ∉ (quotedReplacerChar c).data := by
  unfold quotedReplacerChar
  split_ifs with h1 h2 h3 h4 h5
  · decide
  · decide
  · decide
  · decide
  · decide
  · simp [String.singleton]
    exact fun h => hc h.symm

theorem quotedReplacerList_no_percent (l : List Char)
    (hl : ('%' : Char) ∉ l) :
    ('%' : Char) ∉ (quotedReplacerList l).data := by
  induction l with
  | nil => simp [quotedReplacerList]
  | cons c cs ih =>
      intro hmem
      rw [quotedReplacerList, String.data_append] at hmem
      rcases List.mem_append.mp hmem with h | h
      · exact quotedReplacerChar_no_percent c
          (fun h2 => hl (h2 ▸ List.mem_cons_self c cs)) h
      · exact ih (fun h2 => hl (List.mem_cons_of_mem c h2)) h

theorem quotedReplacer_no_percent (s : String)
    (h : ('%' : Char) ∉ s.data) :
    ('%' : Char) ∉ (quotedReplacer s).data :=
  quotedReplacerList_no_percent s.data h

theorem char_digit_ne_dot (m : Nat) (h : m < 10) : Char.ofNat (48 + m) ≠ '.' := by
  interval_cases m <;> decide

theorem formatDigits_no_dot (n : Nat) : '.' ∉ (formatDigits n).data := by
  induction n using Nat.strong_induction_on with
  | _ n ih =>
      rw [formatDigits]
      split_ifs with h
      · simp [String.singleton]
        exact fun he => char_digit_ne_dot n h he.symm
      · intro hmem
        rw [String.data_append] at hmem
        rcases List.mem_append.mp hmem with hm | hm
        · exact ih (n / 10) (Nat.div_lt_self (by omega) (by omega)) hm
        · simp [String.singleton] at hm
          exact char_digit_ne_dot (n % 10) (Nat.mod_lt _ (by omega)) hm.symm

theorem strconvFormatInt_no_dot (i : Int) : '.' ∉ (strconvFormatInt i).data := by
  unfold strconvFormatInt
  split_ifs with h
  · intro hmem
    rw [String.data_append] at hmem
    rcases List.mem_append.mp hmem with hm | hm
    · revert hm
      decide
    · exact formatDigits_no_dot _ hm
  · exact formatDigits_no_dot _

/-- C1: the claim reads "newline characters inside the string are preserved
literally" in the multiline-quoted block.  The code instead passes the
string through `quotedReplacer`, whose table maps a newline to the escape
pair backslash-`n`: on the string `"a\nb"` (which does contain a newline)
the emitted output contains no literal newline at all, refuting the
claim. -/
theorem claim1_counterexample :
    Char.ofNat 10 ∈ ("a\nb" : String).data
    ∧ (writeMultiLineString initState "a\nb" false).out = "\"\"\"a\\nb\"\"\""
    ∧ Char.ofNat 10 ∉ ((writeMultiLineString initState "a\nb" false).out).data := by
  decide

/-- C1 (amended): with the multiline-quoted modifier active the value is
rendered as a triple-double-quote block whose contents are
`quotedReplacer(s)` passed to `Fprintf` in *format* position with no
operands: identical to the single-line escaping whenever the string holds
no percent sign (`fmt` interprets percent directives in the data
otherwise), and in every case free of literal newlines — a newline in the
string is emitted as the two-character escape sequence, never verbatim. -/
theorem claim1_multiline_quoted_escapes_newlines (st : EncState) (s : String) :
    (writeMultiLineString st s false).out
      = st.out ++ ("\"\"\"" ++ (fprintfNoArgs (quotedReplacer s) ++ "\"\"\""))
    ∧ Char.ofNat 10 ∉ (fprintfNoArgs (quotedReplacer s)).data
    ∧ (('%' : Char) ∉ s.data →
        fprintfNoArgs (quotedReplacer s) = quotedReplacer s) := by
  refine ⟨?_, fprintfNoArgs_no_newline _ (quotedReplacer_no_newline s), ?_⟩
  · simp [writeMultiLineString, wf, String.append_assoc]
  · intro hp
    exact fprintfNoArgs_id_of_no_percent _ (quotedReplacer_no_percent s hp)

/-- C2: the claim reads "the bytes emitted between the opening `'''` marker
and the closing `'''` marker are exactly the string's contents ... no
characters added or removed".  The code writes `s + " "` between the
markers (`enc.wf(s + " ")`), adding one space: already on `s = "a"` the
emitted block is `'''a '''`, not `'''a'''`. -/
theorem claim2_counterexample :
    (writeMultiLineString initState "a" true).out = "\x27\x27\x27a \x27\x27\x27"
    ∧ "\x27\x27\x27a \x27\x27\x27" ≠ "\x27\x27\x27" ++ "a" ++ "\x27\x27\x27" := by
  decide

/-- C2 (amended): with the multiline-raw modifier active the bytes emitted
between the `'''` markers are `s + " "` passed to `Fprintf` in *format*
position with no operands: the string's contents verbatim with one
appended space exactly when the string holds no percent sign (`fmt`
interprets percent directives in the data otherwise). -/
theorem claim2_multiline_raw_verbatim_plus_space (st : EncState) (s : String) :
    (writeMultiLineString st s true).out
      = st.out
        ++ ("\x27\x27\x27" ++ (fprintfNoArgs (s ++ " ") ++ "\x27\x27\x27"))
    ∧ (('%' : Char) ∉ s.data → fprintfNoArgs (s ++ " ") = s ++ " ") := by
  constructor
  · simp [writeMultiLineString, wf, String.append_assoc]
  · intro hp
    apply fprintfNoArgs_id_of_no_percent
    rw [String.data_append]
    intro hmem
    rcases List.mem_append.mp hmem with h | h
    · exact hp h
    · revert h
      decide

/-- C8: a float rendering (a shortest fixed-point decimal, hence with at
most one dot) is passed through `floatAddDecimal`, which appends `.0` when
no dot is present, so the result has exactly one dot; an integer rendering
`strconvFormatInt` consists of a possible minus sign and digits and never
contains a dot. -/
theorem claim8_float_one_dot_int_no_dot (fstr : String) (i : Int) :
    (fstr.data.count '.' ≤ 1 → (floatAddDecimal fstr).data.count '.' = 1)
    ∧ (strconvFormatInt i).data.count '.' = 0 := by
  constructor
  · intro hle
    unfold floatAddDecimal stringsContainsDot
    split_ifs with h
    · rw [String.data_append, List.count_append]
      have hnm : '.' ∉ fstr.data := by
        simp at h
        simpa [List.contains] using h
      rw [List.count_eq_zero.mpr hnm]
      decide
    · simp at h
      have hmem : '.' ∈ fstr.data := by
        simpa [List.contains] using h
      have := List.count_pos_iff.mpr hmem
      omega
  · exact List.count_eq_zero.mpr (strconvFormatInt_no_dot i)

/-- C8 witness: the float rendering `"3"` gains a dot, the integer `37`
has none. -/
theorem claim8_witness :
    (floatAddDecimal "3").data.count '.' = 1
    ∧ (strconvFormatInt 37).data.count '.' = 0 :=
  ⟨(claim8_float_one_dot_int_no_dot "3" 37).1 (by decide),
   (claim8_float_one_dot_int_no_dot "3" 37).2⟩

theorem string_length_eq_zero_iff (s : String) : s.length = 0 ↔ s = "" := by
  cases s with
  | mk l => simp [String.length, String.ext_iff]

theorem except_pure_eq_ok {ε α : Type} (a : α) :
    (pure a : Except ε α) = Except.ok a := rfl

theorem except_throw_eq_error {ε α : Type} (e : ε) :
    (throw e : Except ε α) = Except.error e := rfl

theorem except_bind_ok {ε α β : Type} (a : α) (f : α → Except ε β) :
    (do let x ← (Except.ok a : Except ε α); f x) = f a := rfl

theorem except_bind_error {ε α β : Type} (e : ε) (f : α → Except ε β) :
    (do let x ← (Except.error e : Except ε α); f x) = Except.error e := rfl

theorem except_map_ok {ε α β : Type} (a : α) (f : α → β) :
    f <$> (Except.ok a : Except ε α) = Except.ok (f a) := rfl

theorem except_map_error {ε α β : Type} (e : ε) (f : α → β) :
    f <$> (Except.error e : Except ε α) = (Except.error e : Except ε β) := rfl

/-- C10: leaf key name validation (`panicIfInvalidKey` with `hash = false`,
via `isValidKeyName`) rejects only the empty string; any non-empty
segment — whitespace, dots and brackets included — passes, and
`keyEqElement` emits it verbatim in the `key = value` line.  The
`[`/`]`/`.` restrictions live in `isValidTableName`, which only the
`hash = true` (table-header) path consults. -/
theorem claim10_leaf_key_validation (s : String) (key : Key) (enc : Encoder)
    (st : EncState) :
    (isValidKeyName s = true ↔ s ≠ "")
    ∧ panicIfInvalidKey (key ++ [s]) false
        = (if s = "" then .error (.errInvalidKeyName (Key.dotted (key ++ [s])))
           else .ok ())
    ∧ (s ≠ "" → st.modifier = MOD_NONE →
        keyEqElement enc st (key ++ [s]) (.vBool true)
          = .ok { out := st.out ++ ((indentStr enc (key ++ [s]) ++ (s ++ " = "))
                    ++ ("true" ++ "\n")),
                  hasWritten := true, modifier := MOD_NONE })
    ∧ (('[' ∈ s.data ∨ ']' ∈ s.data ∨ '.' ∈ s.data) → isValidTableName s = false) := by
  have hvalid : isValidKeyName s = true ↔ s ≠ "" := by
    unfold isValidKeyName
    split_ifs with h
    · have hse := (string_length_eq_zero_iff s).mp h
      simp [hse]
    · have hne : s ≠ "" := fun he => h (by simp [he])
      simp [hne]
  have hpanic : panicIfInvalidKey (key ++ [s]) false
      = (if s = "" then .error (.errInvalidKeyName (Key.dotted (key ++ [s])))
         else .ok ()) := by
    unfold panicIfInvalidKey
    rw [List.getLastD_concat]
    simp only [Bool.false_eq_true, if_false]
    by_cases hs : s = ""
    · subst hs
      rw [if_neg (show ¬(isValidKeyName "" = true) from by decide), if_pos rfl]
      rfl
    · rw [if_pos (hvalid.mpr hs), if_neg hs]
      rfl
  refine ⟨hvalid, hpanic, ?_, ?_⟩
  · intro hs hmod
    unfold keyEqElement
    rw [if_neg (by simp)]
    rw [hpanic, if_neg hs]
    rw [except_bind_ok]
    rw [List.getLastD_concat]
    have h1 : (wf st (indentStr enc (key ++ [s]) ++ (s ++ " = "))).modifier
        = st.modifier := rfl
    simp [wf, hmod, MOD_NONE, MOD_MULTILINE_STRING, MOD_MULTILINE_RAWSTRING,
      eElement, newline, except_bind_ok, except_pure_eq_ok, String.append_assoc]
  · intro hmem
    unfold isValidTableName
    split_ifs with h
    · rfl
    · rw [List.all_eq_false]
      rcases hmem with hc | hc | hc
      · exact ⟨'[', hc, by decide⟩
      · exact ⟨']', hc, by decide⟩
      · exact ⟨'.', hc, by decide⟩

/-- C10 witness: the segment `"a b.c[d]"` (whitespace, a dot and brackets)
passes leaf-key validation and is emitted verbatim, while the same string
is rejected as a table name. -/
theorem claim10_witness :
    isValidKeyName "a b.c[d]" = true
    ∧ panicIfInvalidKey ["a b.c[d]"] false = .ok ()
    ∧ keyEqElement NewEncoder initState ["a b.c[d]"] (.vBool true)
        = .ok { out := "a b.c[d] = true\n", hasWritten := true, modifier := MOD_NONE }
    ∧ isValidTableName "a b.c[d]" = false := by
  have h := claim10_leaf_key_validation "a b.c[d]" [] NewEncoder initState
  refine ⟨h.1.mpr (by decide), ?_, ?_, h.2.2.2 (Or.inl (by decide))⟩
  · have h2 := h.2.1
    simp only [List.nil_append] at h2
    exact h2.trans (if_neg (by decide))
  · have h3 := h.2.2.1 (by decide) rfl
    simp only [List.nil_append] at h3
    exact h3.trans rfl

/-- C3: the claim demands a leading blank line before the first `[[arr]]`
header.  A fresh encoder has written nothing yet, so `enc.newline` (which
only writes once `hasWritten` is set) suppresses that first blank line: the
actual output starts directly with `[[arr]]`, refuting the claimed bytes. -/
theorem claim3_counterexample :
    Encode NewEncoder
        (.vMap [("arr", .vArr [.vMap [("x", .vInt 1)], .vMap [("x", .vInt 2)]])])
      = .ok "[[arr]]\n  x = 1\n\n[[arr]]\n  x = 2\n"
    ∧ ("[[arr]]\n  x = 1\n\n[[arr]]\n  x = 2\n" : String)
      ≠ "\n[[arr]]\n  x = 1\n\n[[arr]]\n  x = 2\n" := by
  constructor
  · simp [Encode, encode, eTable, eMapOrStruct, eMap, writeMapKeys, mapKeysLoop,
      partitionMapKeys, sortStrings, List.insertionSort, List.orderedInsert,
      tomlTypeOfGo, tomlArrayType, checkElemTypes, typeEqual, typeIsHash,
      List.lookup, isNil, eArrayOfTables, eArrTablesLoop, panicIfInvalidKey,
      isValidTableName, isValidKeyName, newline, wf, indentStr, stringsRepeat,
      Key.dotted, Key.add, keyEqElement, eElement, strconvFormatInt, formatDigits,
      initState, NewEncoder, MOD_NONE, MOD_MULTILINE_STRING,
      MOD_MULTILINE_RAWSTRING, String.intercalate, String.join]
    rfl
  · decide

/-- C3 (amended): encoding `{"arr": [{"x": 1}, {"x": 2}]}` with a fresh
encoder and the default two-space indent produces exactly the bytes
`[[arr]]\n  x = 1\n\n[[arr]]\n  x = 2\n`: the blank line appears between
the two `[[arr]]` sections, but the one before the first section is
suppressed because nothing has been written yet. -/
theorem claim3_array_of_tables_bytes :
    Encode NewEncoder
        (.vMap [("arr", .vArr [.vMap [("x", .vInt 1)], .vMap [("x", .vInt 2)]])])
      = .ok "[[arr]]\n  x = 1\n\n[[arr]]\n  x = 2\n" := by
  simp [Encode, encode, eTable, eMapOrStruct, eMap, writeMapKeys, mapKeysLoop,
    partitionMapKeys, sortStrings, List.insertionSort, List.orderedInsert,
    tomlTypeOfGo, tomlArrayType, checkElemTypes, typeEqual, typeIsHash,
    List.lookup, isNil, eArrayOfTables, eArrTablesLoop, panicIfInvalidKey,
    isValidTableName, isValidKeyName, newline, wf, indentStr, stringsRepeat,
    Key.dotted, Key.add, keyEqElement, eElement, strconvFormatInt, formatDigits,
    initState, NewEncoder, MOD_NONE, MOD_MULTILINE_STRING,
    MOD_MULTILINE_RAWSTRING, String.intercalate, String.join]
  rfl

/-- C4: on the array `[[1,2],[{"x":1}]]` the claim expects the
NestedTableArray error.  The code's left-to-right homogeneity scan runs
first: element 0 has TOML type `tomlArray` while element 1 (an array whose
element is a map) has type `tomlArrayHash`; `typeEqual` fails, so
`tomlArrayType` panics with `errArrayMixedElementTypes` — the one-level
nested-table check that raises `errArrayNoTable` is never reached. -/
theorem claim4_counterexample :
    Encode NewEncoder
        (.vMap [("a", .vArr [.vArr [.vInt 1, .vInt 2],
                             .vArr [.vMap [("x", .vInt 1)]]])])
      = .error .errArrayMixedElementTypes
    ∧ EncodeError.errArrayMixedElementTypes ≠ EncodeError.errArrayNoTable := by
  constructor
  · simp [Encode, encode, eTable, eMapOrStruct, eMap, writeMapKeys, mapKeysLoop,
      partitionMapKeys, sortStrings, List.insertionSort, List.orderedInsert,
      tomlTypeOfGo, tomlArrayType, checkElemTypes, typeEqual, typeIsHash,
      List.lookup, isNil, eArrayOfTables, eArrTablesLoop, panicIfInvalidKey,
      isValidTableName, isValidKeyName, newline, wf, indentStr, stringsRepeat,
      Key.dotted, Key.add, keyEqElement, eElement, strconvFormatInt, formatDigits,
      initState, NewEncoder, MOD_NONE, MOD_MULTILINE_STRING,
      MOD_MULTILINE_RAWSTRING, String.intercalate, String.join,
      except_throw_eq_error, except_pure_eq_ok, except_bind_ok, except_bind_error,
      except_map_ok, except_map_error]
  · decide

/-- C4 (amended): encoding a value containing the array `[[1,2],[{"x":1}]]`
fails, and the error is MixedArrayTypes: the homogeneity scan compares
element 1's kind (array-of-tables) against element 0's kind (array) and
reports the mixture before the nested-table check can fire. -/
theorem claim4_mixed_not_nested :
    tomlArrayType (.vArr [.vArr [.vInt 1, .vInt 2],
                          .vArr [.vMap [("x", .vInt 1)]]])
      = .error .errArrayMixedElementTypes
    ∧ Encode NewEncoder
        (.vMap [("a", .vArr [.vArr [.vInt 1, .vInt 2],
                             .vArr [.vMap [("x", .vInt 1)]]])])
      = .error .errArrayMixedElementTypes := by
  constructor
  · simp [tomlArrayType, tomlTypeOfGo, checkElemTypes, typeEqual, typeIsHash,
      except_throw_eq_error, except_pure_eq_ok, except_bind_ok, except_bind_error,
      except_map_ok, except_map_error]
  · simp [Encode, encode, eTable, eMapOrStruct, eMap, writeMapKeys, mapKeysLoop,
      partitionMapKeys, sortStrings, List.insertionSort, List.orderedInsert,
      tomlTypeOfGo, tomlArrayType, checkElemTypes, typeEqual, typeIsHash,
      List.lookup, isNil, eArrayOfTables, eArrTablesLoop, panicIfInvalidKey,
      isValidTableName, isValidKeyName, newline, wf, indentStr, stringsRepeat,
      Key.dotted, Key.add, keyEqElement, eElement, strconvFormatInt, formatDigits,
      initState, NewEncoder, MOD_NONE, MOD_MULTILINE_STRING,
      MOD_MULTILINE_RAWSTRING, String.intercalate, String.join,
      except_throw_eq_error, except_pure_eq_ok, except_bind_ok, except_bind_error,
      except_map_ok, except_map_error]

theorem checkElemTypes_first_offense (ft : tomlType) (pre post : List GoValue)
    (bad : GoValue) (kb : Option tomlType)
    (hpre : ∀ e ∈ pre, tomlTypeOfGo e = .ok (some ft))
    (hbad : tomlTypeOfGo bad = .ok kb) (hoff : kb ≠ some ft) :
    checkElemTypes ft (pre ++ bad :: post)
      = .error (if kb = none then .errArrayNilElement
                else .errArrayMixedElementTypes) := by
  induction pre with
  | nil =>
      simp only [List.nil_append, checkElemTypes]
      rw [hbad]
      cases kb with
      | none => simp [except_bind_ok, except_throw_eq_error]
      | some t =>
          have ht : ¬(ft = t) := fun he => hoff (by rw [he])
          simp [except_bind_ok, except_throw_eq_error, typeEqual, ht]
  | cons e pre' ih =>
      have he := hpre e (List.mem_cons_self e pre')
      simp only [List.cons_append, checkElemTypes]
      rw [he]
      simp only [except_bind_ok, typeEqual, decide_eq_true_eq]
      rw [if_neg (by simp)]
      exact ih (fun x hx => hpre x (List.mem_cons_of_mem e hx))

/-- C6: the homogeneity scan of `tomlArrayType` takes its reference kind
from element 0 and walks the remaining elements left to right; a nil
(absent) element kind aborts with `errArrayNilElement`, a kind that
differs from the reference aborts with `errArrayMixedElementTypes`, and
the error raised is the one triggered by the first offending index — the
elements before the offender are examined and agree, the elements after it
are never examined (`post` is arbitrary here, it may even contain values
whose kind computation would abort). -/
theorem claim6_array_scan_first_offense (e0 bad : GoValue) (k0 : tomlType)
    (kb : Option tomlType) (pre post tail : List GoValue) :
    (tomlTypeOfGo e0 = .ok none →
      tomlArrayType (.vArr (e0 :: tail)) = .error .errArrayNilElement)
    ∧ (tomlTypeOfGo e0 = .ok (some k0) →
       (∀ e ∈ pre, tomlTypeOfGo e = .ok (some k0)) →
       tomlTypeOfGo bad = .ok kb → kb ≠ some k0 →
       tomlArrayType (.vArr (e0 :: (pre ++ bad :: post)))
         = .error (if kb = none then .errArrayNilElement
                   else .errArrayMixedElementTypes)) := by
  constructor
  · intro h0
    simp only [tomlArrayType]
    rw [h0]
    simp [except_bind_ok, except_throw_eq_error]
  · intro h0 hpre hbad hoff
    have hscan := checkElemTypes_first_offense k0 pre post bad kb hpre hbad hoff
    simp only [tomlArrayType]
    rw [h0]
    simp only [except_bind_ok]
    rw [hscan]
    simp [except_bind_error]

/-- C6 witness: `[nil, true]` fails on the nil element; in
`[1, 2, true, nil]` the scan passes the agreeing `2`, reports the mixture
at `true`, and never reaches the `nil` after it. -/
theorem claim6_witness :
    tomlArrayType (.vArr [.vNil, .vBool true]) = .error .errArrayNilElement
    ∧ tomlArrayType (.vArr [.vInt 1, .vInt 2, .vBool true, .vNil])
      = .error .errArrayMixedElementTypes := by
  constructor
  · exact (claim6_array_scan_first_offense .vNil (.vBool true) .tomlBool none
      [] [] [.vBool true]).1 (by simp [tomlTypeOfGo, except_pure_eq_ok])
  · have h := (claim6_array_scan_first_offense (.vInt 1) (.vBool true)
      .tomlInteger (some .tomlBool) [.vInt 2] [.vNil] []).2
      (by simp [tomlTypeOfGo, except_pure_eq_ok])
      (by
        intro e he
        simp at he
        subst he
        simp [tomlTypeOfGo, except_pure_eq_ok])
      (by simp [tomlTypeOfGo, except_pure_eq_ok])
      (by simp)
    simpa using h

theorem validmodifiers_kind (m : String) (kind : RKind)
    (h : validmodifiers m = some kind) : kind = RKind.rString := by
  unfold validmodifiers at h
  split_ifs at h <;> exact (Option.some.injEq _ _ ▸ h).symm

/-- C9: the active string modifier is scoped to one entry.  First, a
successful `keyEqElement` always returns a state whose modifier slot is
`MOD_NONE` (the reset after the `key = value` line).  Second, the state
`writeFields` hands to a field's `encode` call carries
`fieldModifier sft` — a function of that field's own tag and kind alone —
whatever modifier was active before, so a modifier can never leak into a
sibling or descendant entry.  Third, a modifier tag on a field whose
reflect kind is not string is ignored: `fieldModifier` is `MOD_NONE`. -/
theorem claim9_modifier_scoped :
    (∀ (enc : Encoder) (st : EncState) (key : Key) (val : GoValue)
        (st' : EncState),
        keyEqElement enc st key val = .ok st' → st'.modifier = MOD_NONE)
    ∧ (∀ (enc : Encoder) (st : EncState) (m : String) (key : Key)
        (fields : List GoField) (p : List Nat) (rest : List (List Nat))
        (sft : GoField),
        fieldByIndex fields p = some sft →
        isNil sft.value = false →
        sft.tomlTag ≠ "-" →
        writeFields enc { st with modifier := m } key fields (p :: rest)
          = (do
              let st2 ← encode enc { st with modifier := fieldModifier sft }
                (Key.add key (if sft.tomlTag = "" then sft.name else sft.tomlTag))
                sft.value
              writeFields enc st2 key fields rest))
    ∧ (∀ sft : GoField, goKind sft.value ≠ RKind.rString →
        fieldModifier sft = MOD_NONE) := by
  refine ⟨?_, ?_, ?_⟩
  · intro enc st key val st' h
    unfold keyEqElement at h
    by_cases hk : key.length = 0
    · rw [if_pos hk] at h
      simp [except_throw_eq_error] at h
    · rw [if_neg hk] at h
      cases hpk : panicIfInvalidKey key false with
      | error e =>
          rw [hpk, except_bind_error] at h
          simp at h
      | ok u =>
          rw [hpk, except_bind_ok] at h
          dsimp only [] at h
          split at h
          · rw [except_pure_eq_ok, except_bind_ok, except_pure_eq_ok] at h
            injection h with h2
            subst h2
            rfl
          · split at h
            · rw [except_pure_eq_ok, except_bind_ok, except_pure_eq_ok] at h
              injection h with h2
              subst h2
              rfl
            · cases he : eElement enc
                  (wf st (indentStr enc key ++ key.getLastD "" ++ " = ")) val with
              | error e =>
                  rw [he, except_bind_error] at h
                  simp at h
              | ok st2 =>
                  rw [he, except_bind_ok, except_pure_eq_ok] at h
                  injection h with h2
                  subst h2
                  rfl
  · intro enc st m key fields p rest sft hfb hnil htag
    conv_lhs => rw [writeFields]
    split
    · rename_i heq
      rw [hfb] at heq
      simp at heq
    · rename_i sft2 heq
      rw [hfb] at heq
      injection heq with heq2
      subst heq2
      rw [hnil]
      simp only [Bool.false_eq_true, if_false]
      rw [if_neg htag]
      try dsimp only []
      congr 1
      unfold fieldModifier
      cases hvm : validmodifiers sft.modifierTag with
      | none => rfl
      | some kind =>
          by_cases hgk : goKind sft.value = kind
          · simp [hgk]
          · simp [hgk]
  · intro sft h
    unfold fieldModifier
    cases hvm : validmodifiers sft.modifierTag with
    | none => rfl
    | some kind =>
        show (if goKind sft.value = kind then sft.modifierTag else MOD_NONE)
          = MOD_NONE
        rw [if_neg]
        rw [validmodifiers_kind sft.modifierTag kind hvm]
        exact h

/-- C9 witness: a `key = value` line written with the multiline-quoted
modifier armed comes back with the modifier slot reset to `MOD_NONE`; the
state handed to an integer field's `encode` carries that field's own
`fieldModifier` whatever was armed before; and a modifier tag on an
integer field resolves to `MOD_NONE`. -/
theorem claim9_witness :
    (∃ st', keyEqElement NewEncoder ⟨"", false, MOD_MULTILINE_STRING⟩ ["k"]
        (.vString "v") = .ok st' ∧ st'.modifier = MOD_NONE)
    ∧ writeFields NewEncoder ⟨"", false, MOD_MULTILINE_RAWSTRING⟩ []
        [GoField.mk "F" "" "" false true (.vInt 3)] [[0]]
        = (do
            let st2 ← encode NewEncoder
              ⟨"", false, fieldModifier (GoField.mk "F" "" "" false true (.vInt 3))⟩
              (Key.add [] "F") (.vInt 3)
            writeFields NewEncoder st2 []
              [GoField.mk "F" "" "" false true (.vInt 3)] [])
    ∧ fieldModifier (GoField.mk "F" "" MOD_MULTILINE_STRING false true (.vInt 3))
        = MOD_NONE := by
  refine ⟨?_, ?_, ?_⟩
  · exact ⟨⟨"k = \"\"\"v\"\"\"\n", true, MOD_NONE⟩,
      rfl,
      claim9_modifier_scoped.1 NewEncoder ⟨"", false, MOD_MULTILINE_STRING⟩
        ["k"] (.vString "v") _ rfl⟩
  · exact claim9_modifier_scoped.2.1 NewEncoder ⟨"", false, "ignored"⟩
      MOD_MULTILINE_RAWSTRING [] [GoField.mk "F" "" "" false true (.vInt 3)]
      [0] [] (GoField.mk "F" "" "" false true (.vInt 3)) rfl rfl (by decide)
  · exact claim9_modifier_scoped.2.2
      (GoField.mk "F" "" MOD_MULTILINE_STRING false true (.vInt 3)) (by decide)

theorem lookup_eq_of_perm (l₁ l₂ : List (String × GoValue)) (h : l₁.Perm l₂) :
    (l₁.map Prod.fst).Nodup →
      ∀ k, List.lookup k l₁ = List.lookup k l₂ := by
  induction h with
  | nil => intro _ k; rfl
  | cons x h ih =>
      intro hnd k
      cases x with
      | mk xk xv =>
          rw [List.lookup, List.lookup]
          by_cases hk : k == xk
          · simp [hk]
          · simp only [hk, Bool.false_eq_true, if_false]
            have hnd' : ∀ l, ((xk, xv) :: l : List (String × GoValue)).map Prod.fst
                = xk :: l.map Prod.fst := fun l => rfl
            rw [hnd' _] at hnd
            exact ih (List.nodup_cons.mp hnd).2 k
  | swap x y l =>
      intro hnd k
      cases x with
      | mk xk xv =>
      cases y with
      | mk yk yv =>
          have hne : ¬(yk = xk) := by
            simp [List.nodup_cons] at hnd
            exact fun he => hnd.1.1 he
          rw [List.lookup, List.lookup, List.lookup, List.lookup]
          by_cases hk1 : k == yk
          · have hk2 : ¬(k == xk) = true := by
              simp at hk1
              subst hk1
              simp
              exact hne
            simp only [hk1, hk2, Bool.false_eq_true, if_true, if_false]
          · by_cases hk2 : k == xk
            · simp only [hk1, hk2, Bool.false_eq_true, if_true, if_false]
            · simp only [hk1, hk2, Bool.false_eq_true, if_false]
  | trans h1 h2 ih1 ih2 =>
      intro hnd k
      rw [ih1 hnd k, ih2 ((h1.map Prod.fst).nodup hnd) k]

theorem mapKeysLoop_congr (enc : Encoder) (key : Key)
    (e₁ e₂ : List (String × GoValue))
    (hlk : ∀ k, List.lookup k e₁ = List.lookup k e₂) :
    ∀ (ks : List String) (st : EncState),
      mapKeysLoop enc st key e₁ ks = mapKeysLoop enc st key e₂ ks := by
  intro ks
  induction ks with
  | nil => intro st; simp only [mapKeysLoop]
  | cons k ks ih =>
      intro st
      conv_lhs => rw [mapKeysLoop]
      conv_rhs => rw [mapKeysLoop]
      split
      · rename_i heq1
        have hl2 : List.lookup k e₂ = none := (hlk k).symm.trans heq1
        split
        · exact ih st
        · rename_i mrv2 heq2
          rw [hl2] at heq2
          cases heq2
      · rename_i mrv heq1
        have hl2 : List.lookup k e₂ = some mrv := (hlk k).symm.trans heq1
        by_cases hn : isNil mrv = true
        · rw [if_pos hn]
          split
          · rename_i heq2
            rw [hl2] at heq2
            cases heq2
          · rename_i mrv2 heq2
            rw [hl2] at heq2
            injection heq2 with he
            subst he
            rw [if_pos hn]
            exact ih st
        · rw [if_neg hn]
          split
          · rename_i heq2
            rw [hl2] at heq2
            cases heq2
          · rename_i mrv2 heq2
            rw [hl2] at heq2
            injection heq2 with he
            subst he
            rw [if_neg hn]
            cases hen : encode enc st (Key.add key k) mrv with
            | error e => rw [except_bind_error, except_bind_error]
            | ok st1 =>
                rw [except_bind_ok, except_bind_ok]
                exact ih st1

theorem partitionMapKeys_eq_filter (entries : List (String × GoValue))
    (h : ∀ p ∈ entries, ∃ t, tomlTypeOfGo p.2 = .ok t) :
    partitionMapKeys entries = .ok (directKeys entries, subKeys entries) := by
  induction entries with
  | nil => rfl
  | cons p rest ih =>
      obtain ⟨t, ht⟩ := h p (List.mem_cons_self p rest)
      have ih' := ih (fun q hq => h q (List.mem_cons_of_mem _ hq))
      cases p with
      | mk k v =>
          have ht' : tomlTypeOfGo v = .ok t := ht
          have hsub : entryIsSub v = typeIsHash t := by
            unfold entryIsSub
            rw [ht']
          rw [partitionMapKeys, ht', except_bind_ok, ih', except_bind_ok]
          by_cases hh : typeIsHash t = true
          · simp [hh, hsub, directKeys, subKeys, List.filter_cons,
              except_pure_eq_ok]
          · simp [hh, hsub, directKeys, subKeys, List.filter_cons,
              except_pure_eq_ok]

/-- C5: `eMap` writes a map node deterministically and in the documented
order.  For any two storage orders of the same entries (with distinct,
type-computable keys) the output is identical; the key partition is
exactly "direct = value not table-shaped, sub = value table-shaped" in
storage order; the node is emitted by first walking the direct keys in
ascending lexicographic order and then the sub keys in ascending
lexicographic order (`sortStrings` is sorted and a permutation of its
input), so every direct entry is written before any sub entry. -/
theorem claim5_eMap_sorted_direct_first (enc : Encoder) (st : EncState)
    (key : Key) (entries entries' : List (String × GoValue))
    (hperm : entries.Perm entries')
    (hnodup : (entries.map Prod.fst).Nodup)
    (htypes : ∀ p ∈ entries, ∃ t, tomlTypeOfGo p.2 = Except.ok t) :
    eMap enc st key entries = eMap enc st key entries'
    ∧ partitionMapKeys entries = .ok (directKeys entries, subKeys entries)
    ∧ eMap enc st key entries
        = (do
            let st1 ← mapKeysLoop enc st key entries
              (sortStrings (directKeys entries))
            mapKeysLoop enc st1 key entries (sortStrings (subKeys entries)))
    ∧ List.Sorted (fun a b => a ≤ b) (sortStrings (directKeys entries))
    ∧ (sortStrings (directKeys entries)).Perm (directKeys entries)
    ∧ List.Sorted (fun a b => a ≤ b) (sortStrings (subKeys entries))
    ∧ (sortStrings (subKeys entries)).Perm (subKeys entries) := by
  have hpart := partitionMapKeys_eq_filter entries htypes
  have htypes' : ∀ p ∈ entries', ∃ t, tomlTypeOfGo p.2 = Except.ok t :=
    fun p hp => htypes p (hperm.mem_iff.mpr hp)
  have hpart' := partitionMapKeys_eq_filter entries' htypes'
  have hemap : eMap enc st key entries
      = (do
          let st1 ← mapKeysLoop enc st key entries
            (sortStrings (directKeys entries))
          mapKeysLoop enc st1 key entries (sortStrings (subKeys entries))) := by
    rw [eMap, hpart, except_bind_ok]
    simp only [writeMapKeys]
  have hemap' : eMap enc st key entries'
      = (do
          let st1 ← mapKeysLoop enc st key entries'
            (sortStrings (directKeys entries'))
          mapKeysLoop enc st1 key entries' (sortStrings (subKeys entries'))) := by
    rw [eMap, hpart', except_bind_ok]
    simp only [writeMapKeys]
  have hdirperm : (directKeys entries).Perm (directKeys entries') :=
    ((hperm.filter _).map Prod.fst)
  have hsubperm : (subKeys entries).Perm (subKeys entries') :=
    ((hperm.filter _).map Prod.fst)
  have hsorted : ∀ l : List String,
      List.Sorted (fun a b => a ≤ b) (sortStrings l) :=
    fun l => List.sorted_insertionSort _ l
  have hsperm : ∀ l : List String, (sortStrings l).Perm l :=
    fun l => List.perm_insertionSort _ l
  have hdeq : sortStrings (directKeys entries)
      = sortStrings (directKeys entries') :=
    List.eq_of_perm_of_sorted
      (((hsperm _).trans hdirperm).trans (hsperm _).symm)
      (hsorted _) (hsorted _)
  have hseq : sortStrings (subKeys entries) = sortStrings (subKeys entries') :=
    List.eq_of_perm_of_sorted
      (((hsperm _).trans hsubperm).trans (hsperm _).symm)
      (hsorted _) (hsorted _)
  have hlk := lookup_eq_of_perm entries entries' hperm hnodup
  have hloop := mapKeysLoop_congr enc key entries entries' hlk
  refine ⟨?_, hpart, hemap, hsorted _, hsperm _, hsorted _, hsperm _⟩
  rw [hemap, hemap', ← hdeq, ← hseq]
  rw [hloop (sortStrings (directKeys entries)) st]
  have hcont : (fun st1 => mapKeysLoop enc st1 key entries
        (sortStrings (subKeys entries)))
      = (fun st1 => mapKeysLoop enc st1 key entries'
        (sortStrings (subKeys entries))) :=
    funext (fun st1 => hloop (sortStrings (subKeys entries)) st1)
  show (mapKeysLoop enc st key entries' (sortStrings (directKeys entries))).bind
        (fun st1 => mapKeysLoop enc st1 key entries
          (sortStrings (subKeys entries)))
      = (mapKeysLoop enc st key entries' (sortStrings (directKeys entries))).bind
        (fun st1 => mapKeysLoop enc st1 key entries'
          (sortStrings (subKeys entries)))
  rw [hcont]

/-- C5 witness: the two storage orders of `{"a": {}, "b": 1}` encode
identically (and the direct key `b` is written before the sub key `a`). -/
theorem claim5_witness :
    eMap NewEncoder initState [] [("b", .vInt 1), ("a", .vMap [])]
      = eMap NewEncoder initState [] [("a", .vMap []), ("b", .vInt 1)] :=
  (claim5_eMap_sorted_direct_first NewEncoder initState []
    [("b", .vInt 1), ("a", .vMap [])] [("a", .vMap []), ("b", .vInt 1)]
    (List.Perm.swap _ _ _) (by decide)
    (by
      intro p hp
      simp at hp
      rcases hp with rfl | rfl
      · exact ⟨some .tomlInteger, by simp [tomlTypeOfGo, except_pure_eq_ok]⟩
      · exact ⟨some .tomlHash, by simp [tomlTypeOfGo, except_pure_eq_ok]⟩)).1

/-- C7: the claim says an embedded field is rejected exactly when its value
is not table-shaped, so a table-shaped (map-like) embedded value should be
expanded without error.  The code checks `t.Kind() != reflect.Struct`: a
struct with one exported anonymous field whose value is a map — TOML type
`tomlHash`, squarely table-shaped — is rejected with `errAnonNonStruct`. -/
theorem claim7_counterexample :
    tomlTypeOfGo (.vMap []) = .ok (some .tomlHash)
    ∧ typeIsHash (some .tomlHash) = true
    ∧ Encode NewEncoder
        (.vStruct [GoField.mk "M" "" "" true true (.vMap [])])
      = .error .errAnonNonStruct := by
  refine ⟨by simp [tomlTypeOfGo, except_pure_eq_ok], by decide, ?_⟩
  simp [Encode, encode, eTable, eMapOrStruct, eStruct, addFields,
    GoField.exported, GoField.anonymous, GoField.value, newline, initState,
    NewEncoder, except_throw_eq_error, except_pure_eq_ok, except_bind_ok,
    except_bind_error, except_map_ok, except_map_error]

theorem addFields_cons (f : GoField) (fs : List GoField) (i : Nat)
    (start : List Nat) :
    addFields (f :: fs) i start
      = (do
          let (d1, s1) ← addFieldsHead f i start
          let (d2, s2) ← addFields fs (i + 1) start
          pure (d1 ++ d2, s1 ++ s2)) := by
  conv_lhs => rw [addFields]
  unfold addFieldsHead
  by_cases h1 : f.exported = false
  · rw [if_pos h1, if_pos h1]
  · rw [if_neg h1, if_neg h1]
    by_cases h2 : f.anonymous = true
    · rw [if_pos h2, if_pos h2]
      split
      · rename_i inner heq
        rw [heq]
      · rename_i heq
        rw [heq]
      · rename_i heqs heqi
        cases hv : f.value <;>
          first
          | rfl
          | exact (heqs _ hv).elim
          | exact (heqi hv).elim
    · rw [if_neg h2, if_neg h2]
      cases ht : tomlTypeOfGo f.value with
      | error e => rfl
      | ok t =>
          by_cases hht : typeIsHash t = true
          · simp only [except_bind_ok, if_pos hht]
          · simp only [except_bind_ok, if_neg hht]

theorem addFields_append (xs ys : List GoField) (i : Nat) (start : List Nat) :
    addFields (xs ++ ys) i start
      = (do
          let (d1, s1) ← addFields xs i start
          let (d2, s2) ← addFields ys (i + xs.length) start
          pure (d1 ++ d2, s1 ++ s2)) := by
  induction xs generalizing i with
  | nil =>
      simp only [List.nil_append, List.length_nil, Nat.add_zero]
      rw [show addFields [] i start
          = (.ok ([], []) : Except EncodeError (List (List Nat) × List (List Nat)))
        from by simp [addFields, except_pure_eq_ok]]
      rw [except_bind_ok]
      cases h : addFields ys i start with
      | error e => rw [except_bind_error]
      | ok p =>
          cases p with
          | mk d2 s2 =>
              rw [except_bind_ok]
              simp [except_pure_eq_ok]
  | cons f fs ih =>
      rw [List.cons_append, addFields_cons, addFields_cons]
      have hlen : i + (f :: fs).length = i + 1 + fs.length := by
        simp [List.length_cons]
        omega
      rw [hlen, ih (i + 1)]
      cases hh : addFieldsHead f i start with
      | error e => simp only [except_bind_error, except_bind_ok, except_pure_eq_ok]
      | ok p =>
          cases p with
          | mk d1 s1 =>
              simp only [except_bind_ok]
              cases h1 : addFields fs (i + 1) start with
              | error e => simp only [except_bind_error, except_bind_ok, except_pure_eq_ok]
              | ok q =>
                  cases q with
                  | mk d2 s2 =>
                      simp only [except_bind_ok]
                      cases h2 : addFields ys (i + 1 + fs.length) start with
                      | error e => simp only [except_bind_error, except_bind_ok, except_pure_eq_ok]
                      | ok r =>
                          cases r with
                          | mk d3 s3 =>
                              simp only [except_bind_ok, except_pure_eq_ok]
                              simp [List.append_assoc]

theorem addFields_cons_error_head (f : GoField) (fs : List GoField) (i : Nat)
    (start : List Nat) (e : EncodeError)
    (hh : addFieldsHead f i start = .error e) :
    addFields (f :: fs) i start = .error e := by
  rw [addFields_cons, hh]
  simp only [except_bind_error]

theorem addFields_cons_ok (f : GoField) (fs : List GoField) (i : Nat)
    (start : List Nat) (d1 s1 d2 s2 : List (List Nat))
    (hh : addFieldsHead f i start = .ok (d1, s1))
    (ht : addFields fs (i + 1) start = .ok (d2, s2)) :
    addFields (f :: fs) i start = .ok (d1 ++ d2, s1 ++ s2) := by
  rw [addFields_cons, hh]
  simp only [except_bind_ok]
  rw [ht]
  simp only [except_bind_ok, except_pure_eq_ok]

theorem addFields_cons_error_tail (f : GoField) (fs : List GoField) (i : Nat)
    (start : List Nat) (d1 s1 : List (List Nat)) (e : EncodeError)
    (hh : addFieldsHead f i start = .ok (d1, s1))
    (ht : addFields fs (i + 1) start = .error e) :
    addFields (f :: fs) i start = .error e := by
  rw [addFields_cons, hh]
  simp only [except_bind_ok]
  rw [ht]
  simp only [except_bind_error]

theorem addFieldsHead_unexported (f : GoField) (i : Nat) (start : List Nat)
    (h : f.exported = false) : addFieldsHead f i start = .ok ([], []) := by
  unfold addFieldsHead
  rw [if_pos h]
  rfl

theorem addFieldsHead_struct (f : GoField) (i : Nat) (start : List Nat)
    (inner : List GoField) (he : f.exported = true) (ha : f.anonymous = true)
    (hv : f.value = .vStruct inner) :
    addFieldsHead f i start = addFields inner 0 [i] := by
  unfold addFieldsHead
  rw [if_neg (by simp [he]), if_pos ha, hv]

theorem addFieldsHead_badvalue (f : GoField) (i : Nat) (start : List Nat)
    (he : f.exported = true) (ha : f.anonymous = true)
    (hbad : ∀ inner, f.value ≠ .vStruct inner)
    (hinv : f.value ≠ .vInvalid) :
    addFieldsHead f i start = .error .errAnonNonStruct := by
  unfold addFieldsHead
  rw [if_neg (by simp [he]), if_pos ha]
  cases hv : f.value <;>
    first
    | rfl
    | exact (hbad _ hv).elim
    | exact (hinv hv).elim

theorem addFieldsHead_invalid (f : GoField) (i : Nat) (start : List Nat)
    (he : f.exported = true) (ha : f.anonymous = true)
    (hv : f.value = .vInvalid) :
    addFieldsHead f i start = .error .errReflectTypeZeroValue := by
  unfold addFieldsHead
  rw [if_neg (by simp [he]), if_pos ha, hv]
  rfl

theorem addFieldsHead_direct (f : GoField) (i : Nat) (start : List Nat)
    (t : Option tomlType) (he : f.exported = true) (ha : f.anonymous = false)
    (ht : tomlTypeOfGo f.value = .ok t) :
    addFieldsHead f i start
      = .ok (if typeIsHash t then ([], [start ++ [i]])
             else ([start ++ [i]], [])) := by
  unfold addFieldsHead
  rw [if_neg (by simp [he]), if_neg (by simp [ha]), ht]
  simp only [except_bind_ok]
  by_cases hht : typeIsHash t = true
  · rw [if_pos hht, if_pos hht]
    rfl
  · rw [if_neg hht, if_neg hht]
    rfl

theorem hasBadAnon_cons_skip (f : GoField) (fs : List GoField)
    (h : f.exported = false ∨ f.anonymous = false) :
    hasBadAnon (f :: fs) = hasBadAnon fs := by
  rw [hasBadAnon]
  rcases h with h | h <;> simp [h]

theorem hasBadAnon_cons_struct (f : GoField) (fs inner : List GoField)
    (he : f.exported = true) (ha : f.anonymous = true)
    (hv : f.value = .vStruct inner) :
    hasBadAnon (f :: fs) = (hasBadAnon inner || hasBadAnon fs) := by
  rw [hasBadAnon]
  simp only [he, ha, Bool.and_self, if_true]
  congr 1
  split
  · rename_i inner2 heq
    rw [hv] at heq
    injection heq with h2
    rw [h2]
  · rename_i heq
    rw [hv] at heq
    simp at heq
  · rename_i heqs heqi
    exact (heqs inner hv).elim

theorem hasBadAnon_cons_badvalue (f : GoField) (fs : List GoField)
    (he : f.exported = true) (ha : f.anonymous = true)
    (hbad : ∀ inner, f.value ≠ .vStruct inner)
    (hinv : f.value ≠ .vInvalid) :
    hasBadAnon (f :: fs) = true := by
  rw [hasBadAnon]
  simp only [he, ha, Bool.and_self, if_true]
  have hm : (match f.value with
      | GoValue.vStruct inner => hasBadAnon inner
      | GoValue.vInvalid => false
      | _ => true) = true := by
    cases hv : f.value <;>
      first
      | rfl
      | exact (hbad _ hv).elim
      | exact (hinv hv).elim
  simp [hm]

theorem hasAnonInvalid_cons_skip (f : GoField) (fs : List GoField)
    (h : f.exported = false ∨ f.anonymous = false) :
    hasAnonInvalid (f :: fs) = hasAnonInvalid fs := by
  rw [hasAnonInvalid]
  rcases h with h | h <;> simp [h]

theorem hasAnonInvalid_cons_struct (f : GoField) (fs inner : List GoField)
    (he : f.exported = true) (ha : f.anonymous = true)
    (hv : f.value = .vStruct inner) :
    hasAnonInvalid (f :: fs)
      = (hasAnonInvalid inner || hasAnonInvalid fs) := by
  rw [hasAnonInvalid]
  simp only [he, ha, Bool.and_self, if_true]
  congr 1
  split
  · rename_i inner2 heq
    rw [hv] at heq
    injection heq with h2
    rw [h2]
  · rename_i heq
    rw [hv] at heq
    simp at heq
  · rename_i heqs heqi
    exact (heqs inner hv).elim

theorem hasAnonInvalid_cons_invalid (f : GoField) (fs : List GoField)
    (he : f.exported = true) (ha : f.anonymous = true)
    (hv : f.value = .vInvalid) :
    hasAnonInvalid (f :: fs) = true := by
  rw [hasAnonInvalid]
  simp only [he, ha, Bool.and_self, if_true]
  split
  · rename_i inner2 heq
    rw [hv] at heq
    simp at heq
  · simp
  · rename_i heqs heqi
    exact (heqi hv).elim

theorem hasAnonInvalid_cons_badvalue (f : GoField) (fs : List GoField)
    (he : f.exported = true) (ha : f.anonymous = true)
    (hbad : ∀ inner, f.value ≠ .vStruct inner)
    (hinv : f.value ≠ .vInvalid) :
    hasAnonInvalid (f :: fs) = hasAnonInvalid fs := by
  rw [hasAnonInvalid]
  simp only [he, ha, Bool.and_self, if_true]
  have hm : (match f.value with
      | GoValue.vStruct inner => hasAnonInvalid inner
      | GoValue.vInvalid => true
      | _ => false) = false := by
    cases hv : f.value <;>
      first
      | rfl
      | exact (hbad _ hv).elim
      | exact (hinv hv).elim
  simp [hm]

theorem fieldsTypeOk_cons_tail (f : GoField) (fs : List GoField)
    (h : fieldsTypeOk (f :: fs) = true) : fieldsTypeOk fs = true := by
  rw [fieldsTypeOk, Bool.and_eq_true] at h
  exact h.2

theorem fieldsTypeOk_cons_struct (f : GoField) (fs inner : List GoField)
    (he : f.exported = true) (ha : f.anonymous = true)
    (hv : f.value = .vStruct inner)
    (h : fieldsTypeOk (f :: fs) = true) : fieldsTypeOk inner = true := by
  rw [fieldsTypeOk, Bool.and_eq_true] at h
  have h1 := h.1
  rw [if_pos he, if_pos ha] at h1
  revert h1
  split
  · rename_i inner2 heq
    rw [hv] at heq
    injection heq with h2
    rw [h2]
    exact id
  · rename_i heq
    exact fun _ => (heq inner hv).elim

theorem fieldsTypeOk_cons_direct (f : GoField) (fs : List GoField)
    (he : f.exported = true) (ha : f.anonymous = false)
    (h : fieldsTypeOk (f :: fs) = true) :
    ∃ t, tomlTypeOfGo f.value = .ok t := by
  rw [fieldsTypeOk, Bool.and_eq_true] at h
  have h1 := h.1
  rw [if_pos he, if_neg (by simp [ha])] at h1
  cases hok : tomlTypeOfGo f.value with
  | ok t => exact ⟨t, rfl⟩
  | error e =>
      rw [hok] at h1
      simp [Except.isOk, Except.toBool] at h1

theorem sizeOf_field_inner_lt (f : GoField) (fs inner : List GoField)
    (hv : f.value = .vStruct inner) : sizeOf inner < sizeOf (f :: fs) := by
  cases f with
  | mk n t m a e v =>
      simp [GoField.value] at hv
      subst hv
      simp
      omega

theorem sizeOf_field_tail_lt (f : GoField) (fs : List GoField) :
    sizeOf fs < sizeOf (f :: fs) := by
  first
  | (simp; omega)
  | simp

theorem addFields_spec (N : Nat) :
    ∀ (fields : List GoField), sizeOf fields ≤ N →
      ∀ (i : Nat) (start : List Nat), fieldsTypeOk fields = true →
      hasAnonInvalid fields = false →
      (hasBadAnon fields = true →
        addFields fields i start = .error .errAnonNonStruct)
      ∧ (hasBadAnon fields = false →
        ∃ ds ss, addFields fields i start = .ok (ds, ss)) := by
  induction N using Nat.strong_induction_on with
  | _ N ihN =>
    intro fields hsz i start hok hninv
    cases fields with
    | nil =>
        constructor
        · intro hbad
          rw [hasBadAnon] at hbad
          cases hbad
        · intro _
          exact ⟨[], [], by simp [addFields, except_pure_eq_ok]⟩
    | cons f fs =>
        have hokfs := fieldsTypeOk_cons_tail f fs hok
        have hltfs : sizeOf fs < N :=
          lt_of_lt_of_le (sizeOf_field_tail_lt f fs) hsz
        by_cases hxp : f.exported = false
        · have hhead := addFieldsHead_unexported f i start hxp
          have hbadeq := hasBadAnon_cons_skip f fs (Or.inl hxp)
          have hninvfs : hasAnonInvalid fs = false := by
            rw [hasAnonInvalid_cons_skip f fs (Or.inl hxp)] at hninv
            exact hninv
          have ihfs := ihN (sizeOf fs) hltfs fs le_rfl (i + 1) start hokfs
            hninvfs
          constructor
          · intro hbad
            rw [hbadeq] at hbad
            exact addFields_cons_error_tail f fs i start [] [] _ hhead
              (ihfs.1 hbad)
          · intro hbad
            rw [hbadeq] at hbad
            obtain ⟨ds, ss, hds⟩ := ihfs.2 hbad
            exact ⟨[] ++ ds, [] ++ ss,
              addFields_cons_ok f fs i start [] [] ds ss hhead hds⟩
        · have hxp' : f.exported = true := by
            revert hxp
            cases f.exported <;> simp
          by_cases han : f.anonymous = true
          · by_cases hstruct : ∃ inner, f.value = .vStruct inner
            · obtain ⟨inner, hv⟩ := hstruct
              have hhead := addFieldsHead_struct f i start inner hxp' han hv
              have hbadeq := hasBadAnon_cons_struct f fs inner hxp' han hv
              have hokin := fieldsTypeOk_cons_struct f fs inner hxp' han hv hok
              have hninv2 : hasAnonInvalid inner = false
                  ∧ hasAnonInvalid fs = false := by
                rw [hasAnonInvalid_cons_struct f fs inner hxp' han hv,
                  Bool.or_eq_false_iff] at hninv
                exact hninv
              have hltin : sizeOf inner < N :=
                lt_of_lt_of_le (sizeOf_field_inner_lt f fs inner hv) hsz
              have ihfs := ihN (sizeOf fs) hltfs fs le_rfl (i + 1) start hokfs
                hninv2.2
              have ihin := ihN (sizeOf inner) hltin inner le_rfl 0 [i] hokin
                hninv2.1
              constructor
              · intro hbad
                rw [hbadeq, Bool.or_eq_true] at hbad
                rcases hbad with hbad | hbad
                · exact addFields_cons_error_head f fs i start _
                    (hhead.trans (ihin.1 hbad))
                · cases hbin : hasBadAnon inner with
                  | true =>
                      exact addFields_cons_error_head f fs i start _
                        (hhead.trans (ihin.1 hbin))
                  | false =>
                      obtain ⟨d1, s1, hd1⟩ := ihin.2 hbin
                      exact addFields_cons_error_tail f fs i start d1 s1 _
                        (hhead.trans hd1) (ihfs.1 hbad)
              · intro hbad
                rw [hbadeq, Bool.or_eq_false_iff] at hbad
                obtain ⟨d1, s1, hd1⟩ := ihin.2 hbad.1
                obtain ⟨d2, s2, hd2⟩ := ihfs.2 hbad.2
                exact ⟨d1 ++ d2, s1 ++ s2,
                  addFields_cons_ok f fs i start d1 s1 d2 s2
                    (hhead.trans hd1) hd2⟩
            · by_cases hinvv : f.value = .vInvalid
              · exfalso
                rw [hasAnonInvalid_cons_invalid f fs hxp' han hinvv] at hninv
                cases hninv
              · have hbadv : ∀ inner, f.value ≠ .vStruct inner :=
                  fun inner hv => hstruct ⟨inner, hv⟩
                have hhead := addFieldsHead_badvalue f i start hxp' han hbadv
                  hinvv
                have hbadeq := hasBadAnon_cons_badvalue f fs hxp' han hbadv
                  hinvv
                constructor
                · intro _
                  exact addFields_cons_error_head f fs i start _ hhead
                · intro hbad
                  rw [hbadeq] at hbad
                  cases hbad
          · have han' : f.anonymous = false := by
              revert han
              cases f.anonymous <;> simp
            obtain ⟨t, ht⟩ := fieldsTypeOk_cons_direct f fs hxp' han' hok
            have hhead := addFieldsHead_direct f i start t hxp' han' ht
            have hbadeq := hasBadAnon_cons_skip f fs (Or.inr han')
            have hninvfs : hasAnonInvalid fs = false := by
              rw [hasAnonInvalid_cons_skip f fs (Or.inr han')] at hninv
              exact hninv
            have ihfs := ihN (sizeOf fs) hltfs fs le_rfl (i + 1) start hokfs
              hninvfs
            by_cases hht : typeIsHash t = true
            · rw [if_pos hht] at hhead
              constructor
              · intro hbad
                rw [hbadeq] at hbad
                exact addFields_cons_error_tail f fs i start _ _ _ hhead
                  (ihfs.1 hbad)
              · intro hbad
                rw [hbadeq] at hbad
                obtain ⟨ds, ss, hds⟩ := ihfs.2 hbad
                exact ⟨[] ++ ds, [start ++ [i]] ++ ss,
                  addFields_cons_ok f fs i start _ _ ds ss hhead hds⟩
            · rw [if_neg hht] at hhead
              constructor
              · intro hbad
                rw [hbadeq] at hbad
                exact addFields_cons_error_tail f fs i start _ _ _ hhead
                  (ihfs.1 hbad)
              · intro hbad
                rw [hbadeq] at hbad
                obtain ⟨ds, ss, hds⟩ := ihfs.2 hbad
                exact ⟨[start ++ [i]] ++ ds, [] ++ ss,
                  addFields_cons_ok f fs i start _ _ ds ss hhead hds⟩

/-- C7 (amended): an exported embedded (anonymous) field's own fields are
spliced into the parent's collected entry lists at the embedding position
(the third conjunct: pre-fields, then the embedded struct's fields under
index `i + pre.length`, then the post-fields shifted past it); on a field
list whose TOML-type computations succeed and which holds no embedded nil
pointer/interface, field collection fails with `errAnonNonStruct` exactly
when some exported anonymous field reachable through the recursion has a
*typed* non-struct value — a map-valued embedded field, though
table-shaped, is among those rejected (see the counterexample); and on an
embedded nil pointer/interface (the zero `reflect.Value` after
indirection) collection instead crashes with the unrecovered
`reflect.Value.Type` panic, `errReflectTypeZeroValue` (second
conjunct). -/
theorem claim7_embedding_struct_only (fields pre inner post : List GoField)
    (n tg mg : String) (i : Nat) (start : List Nat)
    (hok : fieldsTypeOk fields = true)
    (hninv : hasAnonInvalid fields = false) :
    (addFields fields 0 [] = .error .errAnonNonStruct
      ↔ hasBadAnon fields = true)
    ∧ (∀ (n2 tg2 mg2 : String) (fs : List GoField),
        addFields (GoField.mk n2 tg2 mg2 true true .vInvalid :: fs) i start
          = .error .errReflectTypeZeroValue)
    ∧ addFields
        (pre ++ GoField.mk n tg mg true true (.vStruct inner) :: post) i start
      = (do
          let (d1, s1) ← addFields pre i start
          let (d2, s2) ← addFields inner 0 [i + pre.length]
          let (d3, s3) ← addFields post (i + pre.length + 1) start
          pure (d1 ++ (d2 ++ d3), s1 ++ (s2 ++ s3))) := by
  refine ⟨⟨?_, ?_⟩, ?_, ?_⟩
  · intro herr
    cases hb : hasBadAnon fields with
    | true => rfl
    | false =>
        obtain ⟨ds, ss, hds⟩ :=
          (addFields_spec (sizeOf fields) fields le_rfl 0 [] hok hninv).2 hb
        rw [hds] at herr
        cases herr
  · intro hb
    exact (addFields_spec (sizeOf fields) fields le_rfl 0 [] hok hninv).1 hb
  · intro n2 tg2 mg2 fs
    exact addFields_cons_error_head _ fs i start _
      (addFieldsHead_invalid (GoField.mk n2 tg2 mg2 true true .vInvalid)
        i start rfl rfl rfl)
  · rw [addFields_append]
    have hcons := addFields_cons
      (GoField.mk n tg mg true true (.vStruct inner)) post
      (i + pre.length) start
    have hhead := addFieldsHead_struct
      (GoField.mk n tg mg true true (.vStruct inner))
      (i + pre.length) start inner rfl rfl rfl
    rw [hhead] at hcons
    rw [hcons]
    cases h1 : addFields pre i start with
    | error e => simp only [except_bind_error]
    | ok p =>
        cases p with
        | mk d1 s1 =>
            simp only [except_bind_ok]
            cases h2 : addFields inner 0 [i + pre.length] with
            | error e => simp only [except_bind_error, except_bind_ok]
            | ok q =>
                cases q with
                | mk d2 s2 =>
                    simp only [except_bind_ok]
                    cases h3 : addFields post (i + pre.length + 1) start with
                    | error e =>
                        simp only [except_bind_error, except_bind_ok,
                          except_pure_eq_ok]
                    | ok r =>
                        cases r with
                        | mk d3 s3 =>
                            simp only [except_bind_ok, except_pure_eq_ok]

/-- C7 witness: collection aborts with `errAnonNonStruct` on the struct
with one map-valued embedded field, hits the reflect panic
`errReflectTypeZeroValue` on a struct with one embedded nil
pointer/interface, and splices a one-level embedded struct's field in at
the embedding position with index path `[0, 0]`. -/
theorem claim7_witness :
    addFields [GoField.mk "M" "" "" true true (.vMap [])] 0 []
      = .error .errAnonNonStruct
    ∧ addFields [GoField.mk "P" "" "" true true .vInvalid] 0 []
      = .error .errReflectTypeZeroValue
    ∧ addFields
        [GoField.mk "E" "" "" true true
          (.vStruct [GoField.mk "X" "" "" false true (.vInt 1)])] 0 []
      = .ok ([[0, 0]], []) := by
  refine ⟨?_, ?_, ?_⟩
  · exact (claim7_embedding_struct_only
      [GoField.mk "M" "" "" true true (.vMap [])] [] [] [] "M" "" "" 0 []
      (by simp [fieldsTypeOk, GoField.exported, GoField.anonymous,
        GoField.value])
      (by simp [hasAnonInvalid, GoField.exported, GoField.anonymous,
        GoField.value])).1.mpr
      (by simp [hasBadAnon, GoField.exported, GoField.anonymous, GoField.value])
  · exact (claim7_embedding_struct_only
      [GoField.mk "M" "" "" true true (.vMap [])] [] [] [] "M" "" "" 0 []
      (by simp [fieldsTypeOk, GoField.exported, GoField.anonymous,
        GoField.value])
      (by simp [hasAnonInvalid, GoField.exported, GoField.anonymous,
        GoField.value])).2.1 "P" "" "" []
  · have h := (claim7_embedding_struct_only
      [GoField.mk "M" "" "" true true (.vMap [])] []
      [GoField.mk "X" "" "" false true (.vInt 1)] [] "E" "" "" 0 []
      (by simp [fieldsTypeOk, GoField.exported, GoField.anonymous,
        GoField.value])
      (by simp [hasAnonInvalid, GoField.exported, GoField.anonymous,
        GoField.value])).2.2
    simp only [List.nil_append] at h
    refine h.trans ?_
    rw [show addFields ([] : List GoField) 0 []
        = (.ok ([], []) : Except EncodeError (List (List Nat) × List (List Nat)))
      from by simp [addFields, except_pure_eq_ok]]
    simp only [except_bind_ok, List.length_nil, Nat.add_zero]
    rw [show addFields [GoField.mk "X" "" "" false true (.vInt 1)] 0 [0]
        = (.ok ([[0, 0]], [])
            : Except EncodeError (List (List Nat) × List (List Nat)))
      from by simp [addFields, addFieldsHead, GoField.exported,
        GoField.anonymous, GoField.value, tomlTypeOfGo, typeIsHash, typeEqual,
        except_pure_eq_ok, except_bind_ok]]
    simp only [except_bind_ok]
    rw [show addFields ([] : List GoField) (0 + 1) []
        = (.ok ([], []) : Except EncodeError (List (List Nat) × List (List Nat)))
      from by simp [addFields, except_pure_eq_ok]]
    simp only [except_bind_ok, except_pure_eq_ok]
    rfl

end Toml
